import Mathlib

/-!
Verification development for the smart-chessboard firmware.

The definitions below are a shallow embedding of the Python sources
`src/chess.py` (chess rule engine), `src/app.py` (move reconciliation in
`event_listener`) and `src/chessboard.py` (physical-board helpers).

Modelling conventions:
* Python `str` values are `List Char`; `S` converts a Lean string literal.
* Python `int` is `Int`; `//` and `%` with positive divisors are `Int.ediv`
  and `Int.emod`, which agree with Python floor semantics.
* Python exceptions are the `PyErr` error type of an `Except PyErr` monad:
  list indexing (with Python's negative-index wrap), `list.index`,
  `list.remove`, `int(...)` and `re` group access on a failed match can
  raise, exactly as in CPython.
* A Python method that mutates `self` becomes a function taking and
  returning the `GameState` record.
-/

/-- Convert a Lean string literal to the `List Char` representation used for
Python strings throughout this development. -/
def S (s : String) : List Char :=
  s.toList

/-- The Python exceptions that the embedded code can raise. -/
inductive PyErr where
  | indexError
  | valueError
  | typeError
  | attributeError
deriving DecidableEq, Repr

/-- Python list/string subscript `l[i]`: negative indices wrap from the end,
out-of-range indices raise `IndexError`. -/
def pyGet {α : Type} (l : List α) (i : Int) : Except PyErr α :=
  if h : 0 ≤ i ∧ i < (l.length : Int) then
    Except.ok (l.get ⟨i.toNat, by omega⟩)
  else if h2 : -(l.length : Int) ≤ i ∧ i < 0 then
    Except.ok (l.get ⟨((l.length : Int) + i).toNat, by omega⟩)
  else
    Except.error PyErr.indexError

/-- Python list item assignment `l[i] = v`: negative indices wrap,
out-of-range indices raise `IndexError`. -/
def pyStore {α : Type} (l : List α) (i : Int) (v : α) : Except PyErr (List α) :=
  if 0 ≤ i ∧ i < (l.length : Int) then
    Except.ok (l.set i.toNat v)
  else if -(l.length : Int) ≤ i ∧ i < 0 then
    Except.ok (l.set ((l.length : Int) + i).toNat v)
  else
    Except.error PyErr.indexError

/-- Python `list.index(x)`: index of the first occurrence, `ValueError` if
absent. -/
def pyIndex {α : Type} [DecidableEq α] : List α → α → Except PyErr Nat
  | [], _ => Except.error PyErr.valueError
  | a :: l, x =>
    if a = x then
      Except.ok 0
    else
      match pyIndex l x with
      | Except.ok n => Except.ok (n + 1)
      | Except.error e => Except.error e

/-- Python `list.remove(x)`: removes the first occurrence, `ValueError` if
absent. -/
def pyRemove {α : Type} [DecidableEq α] : List α → α → Except PyErr (List α)
  | [], _ => Except.error PyErr.valueError
  | a :: l, x =>
    if a = x then
      Except.ok l
    else
      match pyRemove l x with
      | Except.ok l2 => Except.ok (a :: l2)
      | Except.error e => Except.error e

/-- Python slice `s[a:b]` on strings/lists (never raises). -/
def pySlice {α : Type} (l : List α) (a b : Nat) : List α :=
  (l.take b).drop a

/-- Python `c in s` for a one-character string `c`: substring membership,
which for a single character is just membership. -/
def charIn (c : Char) (s : List Char) : Bool :=
  s.contains c

/-- Leading-segment test used by the substring test below. -/
def leadsWith : List Char → List Char → Bool
  | [], _ => true
  | _ :: _, [] => false
  | a :: as, b :: bs => a = b && leadsWith as bs

/-- Helper for `strIn`: does `a` occur starting at any position of `b`? -/
def strInAux (a : List Char) : List Char → Bool
  | [] => a.isEmpty
  | c :: cs => leadsWith a (c :: cs) || strInAux a cs

/-- Python substring test `a in b` for arbitrary strings. -/
def strIn (a b : List Char) : Bool :=
  strInAux a b

/-- Python truthiness of an optional string (`None` and `""` are falsy). -/
def truthy : Option (List Char) → Bool
  | none => false
  | some s => !s.isEmpty

/-- Python `str.isdigit` restricted to the ASCII digits that occur in FEN
and move strings. -/
def pyIsDigit (c : Char) : Bool :=
  c.isDigit

/-- Whitespace characters recognised by Python `str.split()`. -/
def pyIsSpace (c : Char) : Bool :=
  c = ' ' ∨ c = '\t' ∨ c = '\n' ∨ c = '\r'

/-- Helper for `pySplitWs`: accumulates the current token (reversed). -/
def pySplitWsAux : List Char → List Char → List (List Char)
  | [], acc => if acc.isEmpty then [] else [acc.reverse]
  | c :: cs, acc =>
    if pyIsSpace c then
      if acc.isEmpty then pySplitWsAux cs [] else acc.reverse :: pySplitWsAux cs []
    else
      pySplitWsAux cs (c :: acc)

/-- Python `str.split()` (no argument): split on whitespace runs, dropping
empty fields. -/
def pySplitWs (s : List Char) : List (List Char) :=
  pySplitWsAux s []

/-- Helper for `pySplitOn`: accumulates the current field (reversed). -/
def pySplitOnAux (sep : Char) : List Char → List Char → List (List Char)
  | [], acc => [acc.reverse]
  | c :: cs, acc =>
    if c = sep then acc.reverse :: pySplitOnAux sep cs [] else pySplitOnAux sep cs (c :: acc)

/-- Python `str.split(sep)` for a one-character separator: splits on every
occurrence, keeping empty fields. -/
def pySplitOn (s : List Char) (sep : Char) : List (List Char) :=
  pySplitOnAux sep s []

/-- Digit value of an ASCII digit character. -/
def digitVal (c : Char) : Nat :=
  c.toNat - 48

/-- Helper for `pyInt`: fold an all-digit string. -/
def pyIntDigits : List Char → Nat → Option Nat
  | [], acc => some acc
  | c :: cs, acc =>
    if pyIsDigit c then pyIntDigits cs (acc * 10 + digitVal c) else none

/-- Python `int(s)`: optional surrounding whitespace and an optional sign
followed by at least one digit; anything else raises `ValueError`. -/
def pyInt (s : List Char) : Except PyErr Int :=
  let t := (s.dropWhile pyIsSpace).reverse.dropWhile pyIsSpace |>.reverse
  match t with
  | [] => Except.error PyErr.valueError
  | c :: rest =>
    if c = '-' then
      match rest with
      | [] => Except.error PyErr.valueError
      | _ =>
        match pyIntDigits rest 0 with
        | some n => Except.ok (-(n : Int))
        | none => Except.error PyErr.valueError
    else if c = '+' then
      match rest with
      | [] => Except.error PyErr.valueError
      | _ =>
        match pyIntDigits rest 0 with
        | some n => Except.ok (n : Int)
        | none => Except.error PyErr.valueError
    else
      match pyIntDigits t 0 with
      | some n => Except.ok (n : Int)
      | none => Except.error PyErr.valueError

/-- Decimal digits of a positive natural number, most significant first. -/
def natChars (n : Nat) : List Char :=
  if _h : n < 10 then
    [Nat.digitChar n]
  else
    natChars (n / 10) ++ [Nat.digitChar (n % 10)]
decreasing_by exact Nat.div_lt_self (by omega) (by omega)

/-- Python `str(i)` for an integer. -/
def intChars (i : Int) : List Char :=
  if i < 0 then '-' :: natChars (-i).toNat else natChars i.toNat

/-! ## Move text and notation (chess.py lines 64-242) -/

/-- `RANK` from chess.py. -/
def RANKS : List Char :=
  S ("12345678")

/-- `FILE` from chess.py. -/
def FILES : List Char :=
  S ("abcdefgh")

/-- `PROMOTED_PIECES` from chess.py (as characters). -/
def PROMOTED_PIECES : List Char :=
  S ("NBRQ")

/-- The castling token `O-O`. -/
def OO : List Char :=
  S ("O-O")

/-- The castling token `O-O-O`. -/
def OOO : List Char :=
  S ("O-O-O")

/-- Embeds `move_notation` of chess.py: translate board indices to the textual
move. List accesses `FILE[... % 8]` / `RANK[... // 8]` use Python indexing
semantics (negative wrap, `IndexError` out of range). An empty `promotion`
models the `""` default. -/
def moveText (from_square to_square : Int) (capture : Bool) (promotion : List Char)
    (enpassant : Bool) (castle : Bool) : Except PyErr (List Char) :=
  let move_type : List Char := if capture then S ("x") else S ("-")
  let ep : List Char := if enpassant then S ("e.p.") else []
  let promo : List Char := if promotion.isEmpty then [] else '=' :: promotion
  if castle then
    if to_square = 2 ∨ to_square = 58 then Except.ok OOO else Except.ok OO
  else do
    let f1 ← pyGet FILES (from_square.emod 8)
    let r1 ← pyGet RANKS (from_square.ediv 8)
    let f2 ← pyGet FILES (to_square.emod 8)
    let r2 ← pyGet RANKS (to_square.ediv 8)
    Except.ok ([f1, r1] ++ move_type ++ [f2, r2] ++ promo ++ ep)

/-- Match `[a-h][1-8]` at the head of the input, returning the matched text
and the rest. -/
def matchSquare : List Char → Option (List Char × List Char)
  | a :: b :: rest =>
    if charIn a (S ("abcdefgh")) && charIn b (S ("12345678")) then some ([a, b], rest) else none
  | _ => none

/-- Match `[-x]` at the head of the input. -/
def matchSep : List Char → Option (List Char × List Char)
  | c :: rest => if c = '-' ∨ c = 'x' then some ([c], rest) else none
  | [] => none

/-- The `[NBRQnbrq]` character class. -/
def promoClass (c : Char) : Bool :=
  charIn c (S ("NBRQnbrq"))

/-- Match the group `=?[NBRQnbrq]` greedily (prefer consuming `=`). -/
def matchPromo : List Char → Option (List Char × List Char)
  | '=' :: c :: rest =>
    if promoClass c then some (['=', c], rest)
    else if promoClass '=' then some (['='], c :: rest) else none
  | c :: rest => if promoClass c then some ([c], rest) else none
  | [] => none

/-- Match the literal `e.p.`. -/
def matchEp : List Char → Option (List Char × List Char)
  | 'e' :: '.' :: 'p' :: '.' :: rest => some (S ("e.p."), rest)
  | _ => none

/-- The five capture groups of `MOVE_NOTATION_REGEX`
`([a-h][1-8])?([-x])?([a-h][1-8])(=?[NBRQnbrq])?(e\.p\.)?`; group 3 is the
only mandatory one. -/
structure MoveGroups where
  g1 : Option (List Char)
  g2 : Option (List Char)
  g3 : List Char
  g4 : Option (List Char)
  g5 : Option (List Char)
deriving DecidableEq, Repr

/-- Match groups 3-5 of the move regex at the given position; groups 4 and 5
are optional, so once group 3 matches the whole match succeeds. -/
def matchTail (g1 g2 : Option (List Char)) (s : List Char) : Option MoveGroups :=
  match matchSquare s with
  | none => none
  | some (g3, r3) =>
    let p4 := match matchPromo r3 with
      | some (g, r) => (some g, r)
      | none => (none, r3)
    let g5 := match matchEp p4.2 with
      | some (g, _) => some g
      | none => none
    some ⟨g1, g2, g3, p4.1, g5⟩

/-- Embeds `re.match(MOVE_NOTATION_REGEX, s)`: a backtracking prefix match,
trying the optional groups 1 and 2 greedily in the engine's order
(1&2, 1 only, 2 only, neither). Returns `none` when the regex does not
match (group 3 cannot be placed). -/
def matchMoveRegex (s : List Char) : Option MoveGroups :=
  (match matchSquare s with
   | some (g1, r1) =>
     (match matchSep r1 with
      | some (g2, r2) => matchTail (some g1) (some g2) r2 <|> matchTail (some g1) none r1
      | none => matchTail (some g1) none r1)
   | none => none)
  <|>
  (match matchSep s with
   | some (g2, r2) => matchTail none (some g2) r2
   | none => none)
  <|> matchTail none none s

/-- Embeds `validate_notation` of chess.py (lines 132-169). The Python
function returns `True`, `False`, or falls off the end returning `None`;
`None` is modelled as `false` since every caller only tests truthiness. -/
def validateMoveText (chess_move : List Char) : Bool :=
  if chess_move = OO ∨ chess_move = OOO then true
  else
    match matchMoveRegex chess_move with
    | some m =>
      if m.g1 = none ∧ truthy (some m.g3) ∧ ¬ truthy m.g2 then true
      else if m.g2 = some (S ("x")) ∧ truthy m.g4 then
        (truthy m.g1 ∧ truthy (some m.g3) : Bool)
      else if (m.g2 = some [] ∨ m.g2 = some (S ("-")) ∨ m.g2 = some (S ("x"))) ∧ ¬ truthy m.g4 then
        (truthy m.g1 ∧ truthy (some m.g3) : Bool)
      else if truthy m.g1 ∧ ¬ truthy m.g2 ∧ truthy (some m.g3) then true
      else if truthy m.g1 ∧ truthy (some m.g3) ∧ charIn '=' chess_move ∧ truthy m.g4 then true
      else if m.g2 = some (S ("x")) ∧ truthy m.g5 then true
      else false
    | none => false

/-- Embeds `algebraic_to_board_index` (lines 221-232): `None` for the castling
tokens, otherwise `RANK.index(algebraic[1]) * 8 + FILE.index(algebraic[0].lower())`
with Python's `IndexError`/`ValueError` behaviour. -/
def algebraicToBoardIndex (algebraic : List Char) : Except PyErr (Option Int) :=
  if algebraic = OO ∨ algebraic = OOO then Except.ok none
  else do
    let c1 ← pyGet algebraic 1
    let r ← pyIndex RANKS c1
    let c0 ← pyGet algebraic 0
    let f ← pyIndex FILES c0.toLower
    Except.ok (some ((r : Int) * 8 + (f : Int)))

/-- Using the result of `algebraic_to_board_index` as an integer: Python
raises `TypeError` when it is `None`. -/
def asIndex (o : Option Int) : Except PyErr Int :=
  match o with
  | some i => Except.ok i
  | none => Except.error PyErr.typeError

/-- `algebraic_to_board_index` immediately used as an index/number. -/
def a2b (algebraic : List Char) : Except PyErr Int := do
  let o ← algebraicToBoardIndex algebraic
  asIndex o

/-- Embeds `board_index_to_algebraic` (lines 235-242). -/
def boardIndexToAlgebraic (index : Int) : Except PyErr (List Char) := do
  let f ← pyGet FILES (index.emod 8)
  let r ← pyGet RANKS (index.ediv 8)
  Except.ok [f, r]

/-- Embeds `check_boundary` (lines 245-255): `0 <= index < 64 and index // 8 == rank`. -/
def checkBoundary (index rank : Int) : Bool :=
  decide (0 ≤ index ∧ index < 64 ∧ index.ediv 8 = rank)

/-! ## Game state (class attributes of `Chess`, chess.py lines 309-322) -/

/-- The mutable attributes of a `Chess` instance. `history` entries are
`(white-text, black-text)` pairs as appended by `update_turn`. -/
structure GameState where
  board : List Char
  turn : List Char
  castling : List Char
  enpassant : List Char
  halfmove : Int
  fullmove : Int
  history : List (List Char × List Char)
  result : List Char
  checkmate_flag : Bool
  stalemate_flag : Bool
  insufficient_material_flag : Bool
  check_flag : Bool
  game_over_flag : Bool
deriving DecidableEq, Repr

/-- Embeds `Chess.is_enemy` (lines 519-530). -/
def isEnemy (s : GameState) (index : Int) (color : List Char) : Except PyErr Bool := do
  let c ← pyGet s.board index
  Except.ok (if color = S ("w") then c.isLower else c.isUpper)

/-- Embeds `Chess.is_friendly` (lines 532-543). -/
def isFriendly (s : GameState) (index : Int) (color : List Char) : Except PyErr Bool := do
  let c ← pyGet s.board index
  Except.ok (if color = S ("w") then c.isUpper else c.isLower)

/-! ## Attack detection (`Chess.is_square_attacked`, chess.py lines 1349-1450) -/

/-- The knight part of `is_square_attacked`: offsets `[-17,-15,-10,-6,6,10,15,17]`
paired with rank deltas `[-2,-2,-1,-1,1,1,2,2]`, each checked with
`check_boundary`. -/
def knightAttackScan (board : List Char) (side : List Char) (index : Int) :
    List (Int × Int) → Except PyErr Bool
  | [] => Except.ok false
  | (i, dr) :: rest =>
    if checkBoundary (index + i) (index.ediv 8 + dr) then
      if 0 ≤ index + i ∧ index + i < 64 then do
        let c ← pyGet board (index + i)
        if c = (if side = S ("w") then 'n' else 'N') then Except.ok true
        else knightAttackScan board side index rest
      else knightAttackScan board side index rest
    else knightAttackScan board side index rest

/-- One diagonal ray of the bishop/queen scan: `rank` is stepped before the
bounds test exactly as in the source loop; the walk stops at the first
occupied square. -/
def bqRay (board : List Char) (side : List Char) (index i : Int) :
    List Int → Int → Except PyErr Bool
  | [], _ => Except.ok false
  | j :: rest, rank =>
    let rank2 := if i < 0 then rank - 1 else rank + 1
    if 0 ≤ index + i * j ∧ index + i * j < 64 ∧ checkBoundary (index + i * j) rank2 then do
      let c ← pyGet board (index + i * j)
      if c = (if side = S ("w") then 'b' else 'B') ∨ c = (if side = S ("w") then 'q' else 'Q') then
        Except.ok true
      else if c ≠ ' ' then Except.ok false
      else bqRay board side index i rest rank2
    else Except.ok false

/-- One orthogonal ray of the rook/queen scan; `rank` is stepped only for the
vertical directions, as in the source. -/
def rqRay (board : List Char) (side : List Char) (index i : Int) :
    List Int → Int → Except PyErr Bool
  | [], _ => Except.ok false
  | j :: rest, rank =>
    let rank2 := if i = -8 then rank - 1 else if i = 8 then rank + 1 else rank
    if 0 ≤ index + i * j ∧ index + i * j < 64 ∧ checkBoundary (index + i * j) rank2 then do
      let c ← pyGet board (index + i * j)
      if c = (if side = S ("w") then 'r' else 'R') ∨ c = (if side = S ("w") then 'q' else 'Q') then
        Except.ok true
      else if c ≠ ' ' then Except.ok false
      else rqRay board side index i rest rank2
    else Except.ok false

/-- Run a ray scan over a list of directions, short-circuiting on `true`. -/
def scanDirs (f : Int → Except PyErr Bool) : List Int → Except PyErr Bool
  | [] => Except.ok false
  | d :: ds => do
    let b ← f d
    if b then Except.ok true else scanDirs f ds

/-- The adjacent-king part of `is_square_attacked`. -/
def kingAdjScan (board : List Char) (side : List Char) (index : Int) :
    List Int → Except PyErr Bool
  | [] => Except.ok false
  | i :: rest =>
    if 0 ≤ index + i ∧ index + i < 64 then do
      let c ← pyGet board (index + i)
      if c = (if side = S ("w") then 'k' else 'K') then Except.ok true
      else kingAdjScan board side index rest
    else kingAdjScan board side index rest

/-- The pawn part of `is_square_attacked` (lines 1372-1385), with the guards
exactly as written in the source. -/
def pawnAttackScan (board : List Char) (side : List Char) (index : Int) :
    Except PyErr Bool :=
  if side = S ("w") then do
    let hit1 ←
      if index.emod 8 ≠ 0 ∧ index > 7 then do
        let c ← pyGet board (index + 9)
        Except.ok (decide (c = 'p'))
      else Except.ok false
    if hit1 then Except.ok true
    else if (index + 1).emod 8 ≠ 0 ∧ index > 7 then do
      let c ← pyGet board (index + 7)
      Except.ok (decide (c = 'p'))
    else Except.ok false
  else do
    let hit1 ←
      if index.emod 8 ≠ 0 ∧ index < 56 then do
        let c ← pyGet board (index - 7)
        Except.ok (decide (c = 'P'))
      else Except.ok false
    if hit1 then Except.ok true
    else if (index + 1).emod 8 ≠ 0 ∧ index < 56 then do
      let c ← pyGet board (index - 9)
      Except.ok (decide (c = 'P'))
    else Except.ok false

/-- Embeds `Chess.is_square_attacked` (lines 1349-1450). `boardArg`/`sideArg`
model the `board=None`/`side=None` default parameters. -/
def isSquareAttacked (s : GameState) (index : Int) (boardArg : Option (List Char))
    (sideArg : Option (List Char)) : Except PyErr Bool := do
  let board := boardArg.getD s.board
  let side ←
    match sideArg with
    | some sd => Except.ok sd
    | none => do
      let c ← pyGet board index
      Except.ok (if c.isUpper then S ("w") else S ("b"))
  let pawnHit ← pawnAttackScan board side index
  if pawnHit then Except.ok true
  else do
    let knightHit ← knightAttackScan board side index
      [(-17, -2), (-15, -2), (-10, -1), (-6, -1), (6, 1), (10, 1), (15, 2), (17, 2)]
    if knightHit then Except.ok true
    else do
      let bqHit ← scanDirs
        (fun i => bqRay board side index i [1, 2, 3, 4, 5, 6, 7] (index.ediv 8))
        [-9, -7, 7, 9]
      if bqHit then Except.ok true
      else do
        let rqHit ← scanDirs
          (fun i => rqRay board side index i [1, 2, 3, 4, 5, 6, 7] (index.ediv 8))
          [-8, -1, 1, 8]
        if rqHit then Except.ok true
        else kingAdjScan board side index [-9, -8, -7, -1, 1, 7, 8, 9]

/-! ## Castling legality (`Chess.check_castle`, chess.py lines 887-947) -/

/-- Embeds `Chess.check_castle`. Note the source checks the king's square, the
rights flag, the empty transit squares and the attacked squares — but never
that the rook is on its home square. -/
def checkCastle (s : GameState) (index : Int) (side : List Char) : Except PyErr Bool :=
  if side = S ("w") then do
    let ki ← pyIndex s.board 'K'
    if ki ≠ 4 then Except.ok false
    else if index = 6 then
      if 'K' ∉ s.castling then Except.ok false
      else do
        let c5 ← pyGet s.board 5
        let c6 ← pyGet s.board 6
        if c5 ≠ ' ' ∨ c6 ≠ ' ' then Except.ok false
        else do
          let a4 ← isSquareAttacked s 4 none (some side)
          if a4 then Except.ok false
          else do
            let a5 ← isSquareAttacked s 5 none (some side)
            if a5 then Except.ok false
            else do
              let a6 ← isSquareAttacked s 6 none (some side)
              if a6 then Except.ok false else Except.ok true
    else
      if 'Q' ∉ s.castling then Except.ok false
      else do
        let c1 ← pyGet s.board 1
        let c2 ← pyGet s.board 2
        let c3 ← pyGet s.board 3
        if c1 ≠ ' ' ∨ c2 ≠ ' ' ∨ c3 ≠ ' ' then Except.ok false
        else do
          let a2 ← isSquareAttacked s 2 none (some side)
          if a2 then Except.ok false
          else do
            let a3 ← isSquareAttacked s 3 none (some side)
            if a3 then Except.ok false
            else do
              let a4 ← isSquareAttacked s 4 none (some side)
              if a4 then Except.ok false else Except.ok true
  else do
    let ki ← pyIndex s.board 'k'
    if ki ≠ 60 then Except.ok false
    else if index = 62 then
      if 'k' ∉ s.castling then Except.ok false
      else do
        let c61 ← pyGet s.board 61
        let c62 ← pyGet s.board 62
        if c61 ≠ ' ' ∨ c62 ≠ ' ' then Except.ok false
        else do
          let a60 ← isSquareAttacked s 60 none (some side)
          if a60 then Except.ok false
          else do
            let a61 ← isSquareAttacked s 61 none (some side)
            if a61 then Except.ok false
            else do
              let a62 ← isSquareAttacked s 62 none (some side)
              if a62 then Except.ok false else Except.ok true
    else
      if 'q' ∉ s.castling then Except.ok false
      else do
        let c57 ← pyGet s.board 57
        let c58 ← pyGet s.board 58
        let c59 ← pyGet s.board 59
        if c57 ≠ ' ' ∨ c58 ≠ ' ' ∨ c59 ≠ ' ' then Except.ok false
        else do
          let a58 ← isSquareAttacked s 58 none (some side)
          if a58 then Except.ok false
          else do
            let a59 ← isSquareAttacked s 59 none (some side)
            if a59 then Except.ok false
            else do
              let a60 ← isSquareAttacked s 60 none (some side)
              if a60 then Except.ok false else Except.ok true

/-! ## Pseudo-legal move generation (chess.py lines 1008-1347) -/

/-- Python `range(a, b)` as a list of integers. -/
def intRange (a b : Int) : List Int :=
  (List.range (b - a).toNat).map (fun k => a + (k : Int))

/-- Python `range(a, b, -1)` as a list of integers. -/
def intRangeDesc (a b : Int) : List Int :=
  (List.range (a - b).toNat).map (fun k => a - (k : Int))

/-- The four promotion variants appended by `generate_pawn_moves`
(`for p in PROMOTED_PIECES`). -/
def promoMoves (index target : Int) (capture : Bool) (upper : Bool) :
    Except PyErr (List (List Char)) :=
  PROMOTED_PIECES.mapM
    (fun p => moveText index target capture [if upper then p.toUpper else p.toLower] false false)

/-- One non-sliding destination test shared by the knight and king
generators: move to `target` if it is empty or an enemy piece, with
`capture = is_enemy(target, side)`. -/
def stepArm (s : GameState) (side : List Char) (index target : Int) :
    Except PyErr (List (List Char)) := do
  let c ← pyGet s.board target
  let e ← isEnemy s target side
  if c = ' ' ∨ e = true then do
    let t ← moveText index target e [] false false
    Except.ok [t]
  else Except.ok []

/-- Embeds `Chess.generate_pawn_moves` (lines 1033-1109). -/
def generatePawnMoves (s : GameState) (index : Int) : Except PyErr (List (List Char)) := do
  let c0 ← pyGet s.board index
  if c0.isUpper then do
    let part1 ← do
      let c ← pyGet s.board (index + 8)
      if c = ' ' then do
        let single ←
          if (index + 8).ediv 8 < 7 then do
            let t ← moveText index (index + 8) false [] false false
            Except.ok [t]
          else promoMoves index (index + 8) false true
        let dbl ←
          if index < 16 then do
            let c2 ← pyGet s.board (index + 16)
            if c2 = ' ' then do
              let t ← moveText index (index + 16) false [] false false
              Except.ok [t]
            else Except.ok []
          else Except.ok []
        Except.ok (single ++ dbl)
      else Except.ok []
    let part2 ←
      if checkBoundary (index + 9) (index.ediv 8 + 1) then do
        let c ← pyGet s.board (index + 9)
        if c.isLower then
          if (index + 9).ediv 8 < 7 then do
            let t ← moveText index (index + 9) true [] false false
            Except.ok [t]
          else promoMoves index (index + 9) true true
        else Except.ok []
      else Except.ok []
    let part3 ←
      if checkBoundary (index + 7) (index.ediv 8 + 1) then do
        let c ← pyGet s.board (index + 7)
        if c.isLower then
          if (index + 7).ediv 8 < 7 then do
            let t ← moveText index (index + 7) true [] false false
            Except.ok [t]
          else promoMoves index (index + 7) true true
        else Except.ok []
      else Except.ok []
    let part4 ←
      if index.emod 8 > 0 then do
        let c ← pyGet s.board (index - 1)
        if c = 'p' ∧ s.enpassant = [Char.ofNat (97 + index.emod 8 - 1).toNat, '6'] then do
          let t ← moveText index (index + 7) true [] true false
          Except.ok [t]
        else Except.ok []
      else Except.ok []
    let part5 ←
      if index.emod 8 < 7 then do
        let c ← pyGet s.board (index + 1)
        if c = 'p' ∧ s.enpassant = [Char.ofNat (97 + index.emod 8 + 1).toNat, '6'] then do
          let t ← moveText index (index + 9) true [] true false
          Except.ok [t]
        else Except.ok []
      else Except.ok []
    Except.ok (part1 ++ part2 ++ part3 ++ part4 ++ part5)
  else do
    let part1 ← do
      let c ← pyGet s.board (index - 8)
      if c = ' ' then do
        let single ←
          if (index - 8).ediv 8 > 0 then do
            let t ← moveText index (index - 8) false [] false false
            Except.ok [t]
          else promoMoves index (index - 8) false false
        let dbl ←
          if index > 47 then do
            let c2 ← pyGet s.board (index - 16)
            if c2 = ' ' then do
              let t ← moveText index (index - 16) false [] false false
              Except.ok [t]
            else Except.ok []
          else Except.ok []
        Except.ok (single ++ dbl)
      else Except.ok []
    let part2 ←
      if checkBoundary (index - 7) (index.ediv 8 - 1) then do
        let c ← pyGet s.board (index - 7)
        if c.isUpper then
          if (index - 7).ediv 8 > 0 then do
            let t ← moveText index (index - 7) true [] false false
            Except.ok [t]
          else promoMoves index (index - 7) true false
        else Except.ok []
      else Except.ok []
    let part3 ←
      if checkBoundary (index - 9) (index.ediv 8 - 1) then do
        let c ← pyGet s.board (index - 9)
        if c.isUpper then
          if (index - 9).ediv 8 > 0 then do
            let t ← moveText index (index - 9) true [] false false
            Except.ok [t]
          else promoMoves index (index - 9) true false
        else Except.ok []
      else Except.ok []
    let part4 ←
      if index.emod 8 > 0 then do
        let c ← pyGet s.board (index - 1)
        if c = 'P' ∧ s.enpassant = [Char.ofNat (97 + index.emod 8 - 1).toNat, '3'] then do
          let t ← moveText index (index - 9) true [] true false
          Except.ok [t]
        else Except.ok []
      else Except.ok []
    let part5 ←
      if index.emod 8 < 7 then do
        let c ← pyGet s.board (index + 1)
        if c = 'P' ∧ s.enpassant = [Char.ofNat (97 + index.emod 8 + 1).toNat, '3'] then do
          let t ← moveText index (index - 7) true [] true false
          Except.ok [t]
        else Except.ok []
      else Except.ok []
    Except.ok (part1 ++ part2 ++ part3 ++ part4 ++ part5)

/-- Embeds `Chess.generate_knight_moves` (lines 1111-1158): four overlapping
file blocks, each arm individually boundary-checked. -/
def generateKnightMoves (s : GameState) (index : Int) : Except PyErr (List (List Char)) := do
  let c0 ← pyGet s.board index
  let side := if c0.isUpper then S ("w") else S ("b")
  let b1 ←
    if index.emod 8 > 0 then do
      let a1 ← if index > 15 then stepArm s side index (index - 15) else Except.ok []
      let a2 ← if index.emod 8 < 6 ∧ index > 7 then stepArm s side index (index - 6) else Except.ok []
      let a3 ← if index.emod 8 < 7 ∧ index < 48 then stepArm s side index (index + 17) else Except.ok []
      let a4 ← if index.emod 8 < 6 ∧ index < 56 then stepArm s side index (index + 10) else Except.ok []
      Except.ok (a1 ++ a2 ++ a3 ++ a4)
    else Except.ok []
  let b2 ←
    if index.emod 8 < 7 then do
      let a1 ← if index.emod 8 > 0 ∧ index > 16 then stepArm s side index (index - 17) else Except.ok []
      let a2 ← if index.emod 8 > 1 ∧ index > 7 then stepArm s side index (index - 10) else Except.ok []
      let a3 ← if index.emod 8 > 0 ∧ index < 48 then stepArm s side index (index + 15) else Except.ok []
      let a4 ← if index.emod 8 > 1 ∧ index < 56 then stepArm s side index (index + 6) else Except.ok []
      Except.ok (a1 ++ a2 ++ a3 ++ a4)
    else Except.ok []
  let b3 ←
    if index.emod 8 = 0 then do
      let a1 ← if index > 15 then stepArm s side index (index - 15) else Except.ok []
      let a2 ← if index > 7 then stepArm s side index (index - 6) else Except.ok []
      let a3 ← if index < 48 then stepArm s side index (index + 17) else Except.ok []
      let a4 ← if index < 56 then stepArm s side index (index + 10) else Except.ok []
      Except.ok (a1 ++ a2 ++ a3 ++ a4)
    else Except.ok []
  let b4 ←
    if index.emod 8 = 7 then do
      let a1 ← if index > 16 then stepArm s side index (index - 17) else Except.ok []
      let a2 ← if index > 7 then stepArm s side index (index - 10) else Except.ok []
      let a3 ← if index < 48 then stepArm s side index (index + 15) else Except.ok []
      let a4 ← if index < 56 then stepArm s side index (index + 6) else Except.ok []
      Except.ok (a1 ++ a2 ++ a3 ++ a4)
    else Except.ok []
  Except.ok (b1 ++ b2 ++ b3 ++ b4)

/-- One sliding ray of `generate_bishop_moves`/`generate_rook_moves`: walk the
offsets `index + off * i` for `i = 1, 2, ...` over the `range` list from the
source loop, guarded by the loop's boundary test, stopping at the first
occupied square (capturing an enemy piece). -/
def rayMoves (s : GameState) (side : List Char) (index off : Int) (guard : Int → Int → Bool) :
    List Int → Int → Except PyErr (List (List Char))
  | [], _ => Except.ok []
  | rank :: rest, i =>
    if guard i rank then do
      let t := index + off * i
      let c ← pyGet s.board t
      if c = ' ' then do
        let nt ← moveText index t false [] false false
        let more ← rayMoves s side index off guard rest (i + 1)
        Except.ok (nt :: more)
      else do
        let e ← isEnemy s t side
        if e then do
          let nt ← moveText index t true [] false false
          Except.ok [nt]
        else Except.ok []
    else Except.ok []

/-- Embeds `Chess.generate_bishop_moves` (lines 1160-1223). -/
def generateBishopMoves (s : GameState) (index : Int) : Except PyErr (List (List Char)) := do
  let c0 ← pyGet s.board index
  let side := if c0.isUpper then S ("w") else S ("b")
  let ur ← rayMoves s side index 9 (fun i rank => decide (index + 9 * i < 8 * (rank + 1)))
    (intRange (index.ediv 8 + 1) 8) 1
  let ul ← rayMoves s side index 7 (fun i rank => decide (index + 7 * i > 8 * rank - 1))
    (intRange (index.ediv 8 + 1) 8) 1
  let dr ← rayMoves s side index (-7) (fun i rank => decide (index - 7 * i < 8 * (rank + 1)))
    (intRangeDesc (index.ediv 8 - 1) (-1)) 1
  let dl ← rayMoves s side index (-9) (fun i rank => decide (index - 9 * i > 8 * rank - 1))
    (intRangeDesc (index.ediv 8 - 1) (-1)) 1
  Except.ok (ur ++ ul ++ dr ++ dl)

/-- Embeds `Chess.generate_rook_moves` (lines 1225-1276). -/
def generateRookMoves (s : GameState) (index : Int) : Except PyErr (List (List Char)) := do
  let c0 ← pyGet s.board index
  let side := if c0.isUpper then S ("w") else S ("b")
  let up ← rayMoves s side index 8 (fun _ _ => true) (intRange (index.ediv 8 + 1) 8) 1
  let dn ← rayMoves s side index (-8) (fun _ _ => true) (intRangeDesc (index.ediv 8) 0) 1
  let rt ← rayMoves s side index 1 (fun _ _ => true) (intRange (index.emod 8 + 1) 8) 1
  let lt ← rayMoves s side index (-1) (fun _ _ => true) (intRangeDesc (index.emod 8) 0) 1
  Except.ok (up ++ dn ++ rt ++ lt)

/-- Embeds `Chess.generate_queen_moves` (lines 1278-1286). -/
def generateQueenMoves (s : GameState) (index : Int) : Except PyErr (List (List Char)) := do
  let b ← generateBishopMoves s index
  let r ← generateRookMoves s index
  Except.ok (b ++ r)

/-- Embeds `Chess.generate_king_moves` (lines 1288-1347), including the two
castling availability checks. -/
def generateKingMoves (s : GameState) (index : Int) : Except PyErr (List (List Char)) := do
  let c0 ← pyGet s.board index
  let side := if c0.isUpper then S ("w") else S ("b")
  let m1 ← if index < 56 then stepArm s side index (index + 8) else Except.ok []
  let m2 ← if index > 7 then stepArm s side index (index - 8) else Except.ok []
  let m3 ← if (index + 1).emod 8 ≠ 0 then stepArm s side index (index + 1) else Except.ok []
  let m4 ← if index.emod 8 ≠ 0 then stepArm s side index (index - 1) else Except.ok []
  let m5 ← if (index + 1).emod 8 ≠ 0 ∧ index < 56 then stepArm s side index (index + 9) else Except.ok []
  let m6 ← if index.emod 8 ≠ 0 ∧ index < 56 then stepArm s side index (index + 7) else Except.ok []
  let m7 ← if (index + 1).emod 8 ≠ 0 ∧ index > 7 then stepArm s side index (index - 7) else Except.ok []
  let m8 ← if index.emod 8 ≠ 0 ∧ index > 7 then stepArm s side index (index - 9) else Except.ok []
  let ks ← if side = S ("w") then checkCastle s 6 side else checkCastle s 62 side
  let qs ← if side = S ("w") then checkCastle s 2 side else checkCastle s 58 side
  Except.ok (m1 ++ m2 ++ m3 ++ m4 ++ m5 ++ m6 ++ m7 ++ m8 ++
    (if ks then [OO] else []) ++ (if qs then [OOO] else []))

/-- Embeds `Chess.generate_moves` (lines 1008-1031). -/
def generateMoves (s : GameState) (index : Int) : Except PyErr (List (List Char)) := do
  let piece ← pyGet s.board index
  if charIn piece (S ("Pp")) then generatePawnMoves s index
  else if charIn piece (S ("Nn")) then generateKnightMoves s index
  else if charIn piece (S ("Bb")) then generateBishopMoves s index
  else if charIn piece (S ("Rr")) then generateRookMoves s index
  else if charIn piece (S ("Qq")) then generateQueenMoves s index
  else if charIn piece (S ("Kk")) then generateKingMoves s index
  else Except.ok []

/-! ## Special-move recognition and application (chess.py lines 619-784) -/

/-- The capture groups of the promotion regex
`([a-h][1-8])([-x]?)([a-h][1-8])(=?[NBRQnbrq])?(e\.p\.)?` used by
`is_promotion` and `perform_promotion`; group 2 is a group around an
optional character, so its value is a (possibly empty) string, never `None`. -/
structure PromGroups where
  g1 : List Char
  g2 : List Char
  g3 : List Char
  g4 : Option (List Char)
  g5 : Option (List Char)
deriving DecidableEq, Repr

/-- Groups 3-5 of the promotion regex at the given position. -/
def matchTail2 (g1 g2 : List Char) (s : List Char) : Option PromGroups :=
  match matchSquare s with
  | none => none
  | some (g3, r3) =>
    let p4 := match matchPromo r3 with
      | some (g, r) => (some g, r)
      | none => (none, r3)
    let g5 := match matchEp p4.2 with
      | some (g, _) => some g
      | none => none
    some ⟨g1, g2, g3, p4.1, g5⟩

/-- Embeds `re.match` of the promotion regex (backtracking prefix match;
group 2 prefers one character over the empty string). -/
def matchPromRegex (s : List Char) : Option PromGroups :=
  match matchSquare s with
  | none => none
  | some (g1, r1) =>
    match matchSep r1 with
    | some (g2, r2) => matchTail2 g1 g2 r2 <|> matchTail2 g1 [] r1
    | none => matchTail2 g1 [] r1

/-- Embeds `Chess.is_enpassant` (lines 619-644). -/
def isEnpassant (s : GameState) (move : List Char) : Except PyErr Bool :=
  if s.enpassant = S ("-") then Except.ok false
  else if move = OO ∨ move = OOO then Except.ok false
  else do
    let index ← a2b (pySlice move 0 2)
    let enp ← a2b s.enpassant
    let piece ← pyGet s.board index
    let side := if piece.isUpper then S ("w") else S ("b")
    if ¬ charIn piece (S ("Pp")) then Except.ok false
    else if side = S ("w") then do
      let c ← pyGet s.board (enp - 8)
      if c ≠ 'p' then Except.ok false
      else Except.ok (decide (s.enpassant = pySlice move 3 5))
    else do
      let c ← pyGet s.board (enp + 8)
      if c ≠ 'P' then Except.ok false
      else Except.ok (decide (s.enpassant = pySlice move 3 5))

/-- Embeds `Chess.is_promotion` (lines 646-671). A move the promotion regex
rejects raises `AttributeError` (`match.group` on `None`), as in Python. -/
def isPromotion (s : GameState) (move : List Char) : Except PyErr Bool :=
  if move = OO ∨ move = OOO then Except.ok false
  else
    match matchPromRegex move with
    | none => Except.error PyErr.attributeError
    | some g => do
      let from_square ← a2b g.g1
      let piece ← pyGet s.board from_square
      let side := if piece.isUpper then S ("w") else S ("b")
      if ¬ charIn piece (S ("Pp")) then Except.ok false
      else if side = S ("b") ∧ strIn g.g3 (S ("a1b1c1d1e1f1g1h1")) then Except.ok true
      else if side = S ("w") ∧ strIn g.g3 (S ("a8b8c8d8e8f8g8h8")) then Except.ok true
      else Except.ok false

/-- Embeds `Chess.perform_castle` (lines 710-755) on an explicit working
board. Castling rights are removed from the game state (`self.castling`),
whichever board is being written; `list.remove` of an absent flag raises
`ValueError` as in Python. -/
def performCastle (s : GameState) (board : List Char) (move side : List Char) :
    Except PyErr (GameState × List Char) := do
  let _index ← pyIndex board (if side = S ("w") then 'K' else 'k')
  if move = OO ∧ side = S ("w") then do
    let b1 ← pyStore board 6 'K'
    let b2 ← pyStore b1 5 'R'
    let b3 ← pyStore b2 4 ' '
    let b4 ← pyStore b3 7 ' '
    let c1 ← pyRemove s.castling 'K'
    let c2 ← pyRemove c1 'Q'
    Except.ok ({s with castling := c2}, b4)
  else if move = OO ∧ side = S ("b") then do
    let b1 ← pyStore board 62 'k'
    let b2 ← pyStore b1 61 'r'
    let b3 ← pyStore b2 60 ' '
    let b4 ← pyStore b3 63 ' '
    let c1 ← pyRemove s.castling 'k'
    let c2 ← pyRemove c1 'q'
    Except.ok ({s with castling := c2}, b4)
  else if move = OOO ∧ side = S ("w") then do
    let b1 ← pyStore board 2 'K'
    let b2 ← pyStore b1 3 'R'
    let b3 ← pyStore b2 4 ' '
    let b4 ← pyStore b3 0 ' '
    let c1 ← pyRemove s.castling 'K'
    let c2 ← pyRemove c1 'Q'
    Except.ok ({s with castling := c2}, b4)
  else if move = OOO ∧ side = S ("b") then do
    let b1 ← pyStore board 58 'k'
    let b2 ← pyStore b1 59 'r'
    let b3 ← pyStore b2 60 ' '
    let b4 ← pyStore b3 56 ' '
    let c1 ← pyRemove s.castling 'k'
    let c2 ← pyRemove c1 'q'
    Except.ok ({s with castling := c2}, b4)
  else Except.ok (s, board)

/-- Embeds `Chess.perform_promotion` (lines 757-784) on an explicit working
board. Returns the updated board and whether the early `return False` was
taken. -/
def performPromotion (board : List Char) (move : List Char) :
    Except PyErr (List Char × Bool) :=
  match matchPromRegex move with
  | none => Except.error PyErr.attributeError
  | some g => do
    let from_square ← a2b g.g1
    let to_square ← a2b g.g3
    let piece ← pyGet board from_square
    let side := if piece.isUpper then S ("w") else S ("b")
    if ¬ charIn piece (S ("Pp")) then Except.ok (board, false)
    else do
      let b1 ← pyStore board from_square ' '
      let g4 ← (match g.g4 with
        | some t => Except.ok t
        | none => Except.error PyErr.typeError)
      let pc ← pyGet g4 1
      let b2 ← pyStore b1 to_square (if side = S ("w") then pc.toUpper else pc.toLower)
      Except.ok (b2, true)

/-- Embeds `Chess.make_test_move` (lines 673-709): applies a move to the given
working board with no validity check; reads `self` (game state) for the
en-passant test. -/
def makeTestMove (s : GameState) (board : List Char) (move side : List Char) :
    Except PyErr (GameState × List Char) := do
  let (s1, board1) ←
    if move = OO ∨ move = OOO then performCastle s board move side
    else Except.ok (s, board)
  let isEp ← isEnpassant s1 move
  if isEp then do
    let from_square ← a2b (pySlice move 0 2)
    let to_square ← a2b (pySlice move 3 5)
    let b2 ← pyStore board1 from_square ' '
    let b3 ← pyStore b2 to_square (if side = S ("w") then 'P' else 'p')
    let enp ← a2b s1.enpassant
    let captured_square := if side = S ("w") then enp - 8 else enp + 8
    let b4 ← pyStore b3 captured_square ' '
    Except.ok (s1, b4)
  else do
    let from_square ← a2b (pySlice move 0 2)
    let to_square ← a2b (pySlice move 3 5)
    let piece ← pyGet board1 from_square
    let b2 ← pyStore board1 from_square ' '
    let b3 ← pyStore b2 to_square piece
    Except.ok (s1, b3)

/-! ## Legality filtering and game-level predicates (chess.py lines 858-1533) -/

/-- Embeds `Chess.is_move_in_check` (lines 1466-1485): applies the move to a
copy of the board and tests whether the mover's king square is attacked.
Castling moves return `False` immediately. -/
def isMoveInCheck (s : GameState) (move : List Char) : Except PyErr Bool :=
  if move = OO ∨ move = OOO then Except.ok false
  else do
    let moved_piece ← a2b (pySlice move 0 2)
    let c ← pyGet s.board moved_piece
    let side := if c.isUpper then S ("w") else S ("b")
    let king_piece := if side = S ("w") then 'K' else 'k'
    let (s2, previous_board) ← makeTestMove s s.board move side
    let king_index ← pyIndex previous_board king_piece
    isSquareAttacked s2 (king_index : Int) (some previous_board) none

/-- Embeds `Chess.remove_illegal_moves` (lines 1452-1464). -/
def removeIllegalMoves (s : GameState) : List (List Char) → Except PyErr (List (List Char))
  | [] => Except.ok []
  | m :: ms => do
    let b ← isMoveInCheck s m
    let rest ← removeIllegalMoves s ms
    if b then Except.ok rest else Except.ok (m :: rest)

/-- Embeds `Chess.get_legal_moves` (lines 992-1006). -/
def getLegalMoves (s : GameState) (index : Int) : Except PyErr (List (List Char)) := do
  let piece ← pyGet s.board index
  if piece = ' ' then Except.ok []
  else do
    let moves ← generateMoves s index
    removeIllegalMoves s moves

/-- The scan loop of `Chess.all_legal_moves` (lines 970-990), including the
`shortcut` early-exit behaviour. -/
def allLegalMovesAux (s : GameState) (color : List Char) (shortcut : Bool) :
    List Int → List (List Char) → Except PyErr (List (List Char))
  | [], moves => removeIllegalMoves s moves
  | i :: rest, moves => do
    let c ← pyGet s.board i
    let moves2 ←
      if c.isUpper ∧ color = S ("w") then do
        let g ← generateMoves s i
        Except.ok (moves ++ g)
      else if c.isLower ∧ color = S ("b") then do
        let g ← generateMoves s i
        Except.ok (moves ++ g)
      else Except.ok moves
    if shortcut ∧ moves2.length > 0 then do
      let f ← removeIllegalMoves s moves2
      if f.length > 0 then Except.ok f
      else allLegalMovesAux s color shortcut rest f
    else allLegalMovesAux s color shortcut rest moves2

/-- Embeds `Chess.all_legal_moves`. -/
def allLegalMoves (s : GameState) (color : List Char) (shortcut : Bool) :
    Except PyErr (List (List Char)) :=
  allLegalMovesAux s color shortcut ((List.range 64).map (fun k => (k : Int))) []

/-- Embeds `Chess.can_king_castle` (lines 873-885). -/
def canKingCastle (s : GameState) (side : List Char) : Except PyErr Bool := do
  let index ← pyIndex s.board (if side = S ("w") then 'K' else 'k')
  let move_list ← getLegalMoves s (index : Int)
  Except.ok (decide (OO ∈ move_list ∨ OOO ∈ move_list))

/-- Embeds `Chess.is_check` (lines 1487-1499). -/
def isCheck (s : GameState) (side : List Char) : Except PyErr Bool := do
  let king_piece := if side = S ("w") then 'K' else 'k'
  let king_index ← pyIndex s.board king_piece
  isSquareAttacked s (king_index : Int) none none

/-- Embeds `Chess.is_checkmate` (lines 1501-1515). -/
def isCheckmate (s : GameState) (side : List Char) : Except PyErr Bool := do
  let chk ← isCheck s side
  if ¬ chk then Except.ok false
  else do
    let moves ← allLegalMoves s side false
    Except.ok (decide (moves.length = 0))

/-- Embeds `Chess.is_stalemate` (lines 1517-1532). -/
def isStalemate (s : GameState) (side : List Char) : Except PyErr Bool := do
  let chk ← isCheck s side
  if chk then Except.ok false
  else do
    let moves ← allLegalMoves s side true
    Except.ok (decide (moves.length = 0))

/-- Embeds `Chess.check_regular_move` (lines 949-968). -/
def checkRegularMove (s : GameState) (move : List Char) : Except PyErr Bool := do
  let from_square ← a2b (pySlice move 0 2)
  let _to_square ← a2b (pySlice move 3 5)
  let piece ← pyGet s.board from_square
  let legal_moves ← getLegalMoves s from_square
  if piece = ' ' then Except.ok false
  else Except.ok (decide (move ∈ legal_moves))

/-- Embeds `Chess.check_move` (lines 858-871). -/
def checkMove (s : GameState) (move side : List Char) : Except PyErr Bool :=
  if move = OO then checkCastle s (if side = S ("w") then 6 else 62) side
  else if move = OOO then checkCastle s (if side = S ("w") then 2 else 58) side
  else checkRegularMove s move

/-! ## Turn bookkeeping and move application (chess.py lines 545-856) -/

/-- The check/checkmate/stalemate block of `Chess.update_turn` (lines
551-571): sets the status flags and the result, and suffixes the move text
with `#`, `+` or `=`. -/
def updateTurnStatus (s : GameState) (next_turn move0 : List Char) :
    Except PyErr (GameState × List Char) := do
  let chk ← isCheck s next_turn
  if chk then do
    let s := {s with check_flag := true}
    let cm ← isCheckmate s next_turn
    if cm then
      let res := if next_turn = S ("b") then S ("1-0") else S ("0-1")
      Except.ok ({s with checkmate_flag := true, result := res, game_over_flag := true},
        move0 ++ S ("#"))
    else Except.ok (s, move0 ++ S ("+"))
  else do
    let sm ← isStalemate s next_turn
    if sm then
      Except.ok ({s with stalemate_flag := true, result := S ("1/2-1/2"), game_over_flag := true},
        move0 ++ S ("="))
    else Except.ok (s, move0)

/-- The history block of `Chess.update_turn` (lines 573-579): append
`(move, "")` on white's turn, otherwise fill the black slot of the last
pair (`self.history[-1] = (self.history[-1][0], move)`). -/
def updateTurnHistory (s : GameState) (move : List Char) : Except PyErr GameState :=
  if s.turn = S ("w") then Except.ok {s with history := s.history ++ [(move, [])]}
  else
    if s.history.length = 0 then Except.ok {s with history := [([], move)]}
    else do
      let lastE ← pyGet s.history (-1)
      let h2 ← pyStore s.history (-1) (lastE.1, move)
      Except.ok {s with history := h2}

/-- The fullmove/halfmove/en-passant block of `Chess.update_turn` (lines
583-600), run after the turn has been flipped. -/
def updateTurnClocks (s : GameState) (move : List Char) (promoted : Bool) :
    Except PyErr GameState := do
  let s := if s.turn = S ("w") then {s with fullmove := s.fullmove + 1} else s
  if move = OO ∨ move = OOO then
    Except.ok {s with halfmove := s.halfmove + 1}
  else do
    let c2 ← pyGet move 2
    if c2 = 'x' then Except.ok {s with halfmove := 0}
    else do
      let ti ← a2b (pySlice move 3 5)
      let pc ← pyGet s.board ti
      if charIn pc (S ("Pp")) ∨ promoted then do
        let s := {s with halfmove := 0}
        let from_square ← a2b (pySlice move 0 2)
        let to_square ← a2b (pySlice move 3 5)
        if (from_square - to_square).natAbs = 16 then do
          let ep ← boardIndexToAlgebraic ((from_square + to_square).ediv 2)
          Except.ok {s with enpassant := ep}
        else Except.ok {s with enpassant := S ("-")}
      else Except.ok {s with halfmove := s.halfmove + 1}

/-- Embeds `Chess.update_turn` (lines 545-604): flips the side to move,
recomputes check/checkmate/stalemate flags, appends the (possibly
`+`/`#`/`=`-suffixed) move text to the history, and updates the fullmove,
halfmove and en-passant fields. Note `move[2]`, `move[3:5]` and the
`RANK.index` inside `algebraic_to_board_index` can raise for short move
strings such as a suffixed `O-O+`. -/
def updateTurn (s0 : GameState) (move0 : List Char) (promoted : Bool) :
    Except PyErr GameState := do
  let next_turn := if s0.turn = S ("w") then S ("b") else S ("w")
  let s := {s0 with check_flag := false, checkmate_flag := false,
                    stalemate_flag := false, game_over_flag := false}
  let step1 ← updateTurnStatus s next_turn move0
  let s ← updateTurnHistory step1.1 step1.2
  let s := {s with turn := next_turn}
  updateTurnClocks s step1.2 promoted

/-- Embeds `Chess.make_move` (lines 786-856): the notation gate, the
side-ownership gate, then the en-passant / promotion / regular-or-castle
application paths. Returns the Python result together with the state. -/
def makeMove (s : GameState) (move : List Char) (sideArg : Option (List Char)) :
    Except PyErr (Bool × GameState) := do
  let side := sideArg.getD s.turn
  if ¬ validateMoveText move then Except.ok (false, s)
  else if ¬ validateMoveText move then Except.ok (false, s)
  else do
    let ownFail ←
      if ¬ (move = OO ∨ move = OOO) then do
        let from_square ← a2b (pySlice move 0 2)
        let c ← pyGet s.board from_square
        Except.ok (decide ((c.isUpper ∧ side ≠ S ("w")) ∨ (c.isLower ∧ side ≠ S ("b"))))
      else Except.ok false
    if ownFail then Except.ok (false, s)
    else do
      let isEp ← isEnpassant s move
      if isEp then do
        let from_square ← a2b (pySlice move 0 2)
        let to_square ← a2b (pySlice move 3 5)
        let b1 ← pyStore s.board from_square ' '
        let b2 ← pyStore b1 to_square (if side = S ("w") then 'P' else 'p')
        let enp ← a2b s.enpassant
        let captured_square := if side = S ("w") then enp - 8 else enp + 8
        let b3 ← pyStore b2 captured_square ' '
        let s := {s with board := b3, enpassant := S ("-")}
        let s ← updateTurn s move false
        Except.ok (true, s)
      else do
        let isProm ← isPromotion s move
        if isProm then do
          let pr ← performPromotion s.board move
          let s := {s with board := pr.1, enpassant := S ("-")}
          let s ← updateTurn s move true
          Except.ok (true, s)
        else do
          let okMove ← checkMove s move side
          if okMove then
            if ¬ (move = OO ∨ move = OOO) then do
              let from_square ← a2b (pySlice move 0 2)
              let to_square ← a2b (pySlice move 3 5)
              let c ← pyGet s.board from_square
              let b1 ← pyStore s.board to_square c
              let b2 ← pyStore b1 from_square ' '
              let s := {s with board := b2, enpassant := S ("-")}
              let s ← updateTurn s move false
              Except.ok (true, s)
            else do
              let pc ← performCastle s s.board move s.turn
              let s := {pc.1 with board := pc.2, enpassant := S ("-")}
              let s ← updateTurn s move false
              Except.ok (true, s)
          else Except.ok (false, s)

/-! ## FEN serialization (chess.py lines 375-431) -/

/-- The inner character loop of `set_fen`: digits advance the file pointer,
other characters are written at `(i - 1) * 8 + j`. -/
def setRankChars (board : List Char) (i : Int) : List Char → Int → Except PyErr (List Char)
  | [], _ => Except.ok board
  | c :: cs, j =>
    if pyIsDigit c then setRankChars board i cs (j + (digitVal c : Int))
    else do
      let b2 ← pyStore board ((i - 1) * 8 + j) c
      setRankChars b2 i cs (j + 1)

/-- The outer rank loop of `set_fen`, `i` counting down from 8. -/
def setFenRanks (board : List Char) : List (List Char) → Int → Except PyErr (List Char)
  | [], _ => Except.ok board
  | r :: rs, i => do
    let b2 ← setRankChars board i r 0
    setFenRanks b2 rs (i - 1)

/-- Embeds `Chess.set_fen` (lines 375-406). The `result` field and the
history are not assigned, exactly as in the source. -/
def setFen (s : GameState) (fen : List Char) : Except PyErr GameState := do
  let fields := pySplitWs fen
  let turn ← pyGet fields 1
  let castl ← pyGet fields 2
  let enp ← pyGet fields 3
  let f4 ← pyGet fields 4
  let hm ← pyInt f4
  let f5 ← pyGet fields 5
  let fm ← pyInt f5
  let f0 ← pyGet fields 0
  let board ← setFenRanks (List.replicate 64 ' ') (pySplitOn f0 '/') 8
  let s2 := {s with board := board, turn := turn, castling := castl, enpassant := enp}
  let s3 := {s2 with halfmove := hm, fullmove := fm, check_flag := false}
  Except.ok {s3 with checkmate_flag := false, stalemate_flag := false,
                     insufficient_material_flag := false, game_over_flag := false}

/-- The inner file loop of `get_fen` over one rank, carrying the
empty-square counter. -/
def getFenRowAux (board : List Char) (base : Int) : List Nat → Nat → Except PyErr (List Char)
  | [], empty => Except.ok (if empty > 0 then natChars empty else [])
  | j :: js, empty => do
    let c ← pyGet board (base + (j : Int))
    if c = ' ' then getFenRowAux board base js (empty + 1)
    else do
      let rest ← getFenRowAux board base js 0
      Except.ok ((if empty > 0 then natChars empty else []) ++ c :: rest)

/-- The outer rank loop of `get_fen` (`i` in `range(56, -1, -8)`), appending
`/` after every rank except the last. -/
def getFenRows (board : List Char) : List Int → Except PyErr (List Char)
  | [] => Except.ok []
  | i :: rest => do
    let row ← getFenRowAux board i [0, 1, 2, 3, 4, 5, 6, 7] 0
    let more ← getFenRows board rest
    Except.ok (row ++ (if i > 0 then ['/'] else []) ++ more)

/-- Embeds `Chess.get_fen` (lines 408-431). -/
def getFen (s : GameState) : Except PyErr (List Char) := do
  let placement ← getFenRows s.board [56, 48, 40, 32, 24, 16, 8, 0]
  Except.ok (placement ++ [' '] ++ s.turn ++ [' '] ++ s.castling ++ [' '] ++ s.enpassant
    ++ [' '] ++ intChars s.halfmove ++ [' '] ++ intChars s.fullmove)

/-- Embeds `Chess.get_move_history` (lines 606-617): the full history, or the
Python slice `history[-num_moves:]`. -/
def getMoveHistory (s : GameState) (num_moves : Nat) : List (List Char × List Char) :=
  if num_moves = 0 then s.history else s.history.drop (s.history.length - num_moves)

/-- The FEN of the standard starting position, used by `__init__` and
`reset_board`. -/
def START_FEN : List Char :=
  S ("rnbqkbnr/pppppppp/8/8/8/8/PPPPPPPP/RNBQKBNR w KQkq - 0 1")

/-! ## Constructing instances (`Chess.__init__`, chess.py lines 309-337) -/

/-- The class-attribute defaults of `Chess` (chess.py lines 309-322). -/
def classDefaults : GameState :=
  ⟨List.replicate 64 ' ', S ("w"), S ("KQkq"), S ("-"), 0, 1, [], S ("*"),
    false, false, false, false, false⟩

/-- `Chess(fen)` / `Chess()`: `__init__` calls `set_fen` on the given FEN (or
the starting FEN) over the class defaults. -/
def chessInit (fen : List Char) : Except PyErr GameState :=
  setFen classDefaults fen

/-- The state of a freshly constructed `Chess()` instance. -/
def startSt : GameState :=
  ((chessInit START_FEN).toOption).getD classDefaults

/-! ## Physical-board helpers (src/chessboard.py) and the reconciler state
(`event_listener` locals, src/app.py lines 780-1458) -/

/-- Embeds `Chessboard.count_pieces` (chessboard.py line 272):
`str(bin(x)).count("1")`, the population count of the snapshot. -/
def countPieces (x : Nat) : Nat :=
  (Nat.bits x).count true

/-- Modelled from the spec: `chessboard.delta_board_positions` is called by
`event_listener` (app.py line 1075) but is not defined anywhere under the
sources; per the spec it "count[s] changed squares between previous and
current snapshot", i.e. the number of the 64 square bits on which the two
snapshots differ. -/
def deltaBoardPositions (prev new : Nat) : Nat :=
  ((List.range 64).filter (fun i => prev.testBit i ≠ new.testBit i)).length

/-- The `event_listener` local variables involved in classifying one sensor
delta (src/app.py). `game` is the Rule Engine instance; `move_text` models
the `move_notation` variable. -/
structure EventState where
  game : GameState
  prev_board_status : Nat
  board_status : Nat
  curr_pieces : Nat
  final_num_pieces : Nat
  final_move_board_status : Nat
  board_state_piece_lifted : Nat
  board_state_capturing_piece : Nat
  board_state_captured_piece : Nat
  final_move : Option (List Char × List Char)
  move_text : Option (List Char)
  original_position : Option (List Char)
  piece_removed : Bool
  capture_flag : Bool
  position_changed_flag : Bool
  force_fix_board_flag : Bool
  potential_castle : Bool
  is_castling : Bool
  castling_complete_flag : Bool
  finish_castling_flag : Bool
  potential_en_passant : Bool
  is_en_passant_move : Bool
  potential_promotion : Bool
  is_promoting : Bool
  move_complete_flag : Bool
deriving DecidableEq, Repr

/-- Embeds the delta-classification head of the interrupt handler
(app.py lines 1075-1091): the `delta_positions > 1` cascade that can set
`force_fix_board_flag`, followed by the `position_changed_flag` update. -/
def deltaDispatch (st : EventState) : EventState :=
  let delta := deltaBoardPositions st.prev_board_status st.board_status
  let st :=
    if delta > 1 then
      if st.potential_castle ∧ delta ≤ 4 then st
      else if delta = 2 ∧ st.capture_flag then st
      else if delta = 3 ∧ st.potential_en_passant then st
      else if delta > 2 then {st with force_fix_board_flag := true}
      else st
    else st
  if ¬ st.position_changed_flag ∧ st.board_status ≠ st.prev_board_status ∧
      ¬ st.force_fix_board_flag then
    {st with position_changed_flag := true}
  else st

/-- The guard of the castling-completion wait block (app.py line 1093). -/
def castlingWaitGuard (st : EventState) : Bool :=
  st.position_changed_flag && !st.force_fix_board_flag && st.finish_castling_flag

/-- The guard of the move-scan block that classifies lifted pieces and
completed/capture moves (app.py lines 1126-1131); every path that marks a
move as complete or calls the Rule Engine in this interrupt pass sits under
it. -/
def moveScanGuard (st : EventState) : Bool :=
  st.position_changed_flag && !st.force_fix_board_flag && !st.finish_castling_flag &&
    !st.is_promoting

/-- Embeds the take-back branch of the move scan
(`elif board_status == prev_board_status:`, app.py lines 1432-1449):
`num_pieces` is `count_pieces(board_status)` from line 1132. The branch
resets the pending-move and castling context but leaves
`potential_en_passant`, `potential_promotion` and the promotion flags
untouched, and calls nothing on `game`. -/
def takeBackBranch (st : EventState) : EventState :=
  let num_pieces := countPieces st.board_status
  {st with move_complete_flag := false,
           final_move_board_status := st.board_status,
           final_num_pieces := num_pieces,
           final_move := none,
           move_text := none,
           original_position := none,
           piece_removed := false,
           capture_flag := false,
           board_state_piece_lifted := 0,
           board_state_capturing_piece := 0,
           board_state_captured_piece := 0,
           curr_pieces := num_pieces,
           position_changed_flag := false,
           potential_castle := false,
           is_castling := false}

/-! ## Spec-side attack definition (for checking `is_square_attacked`) -/

/-- Modelled from the spec: a pawn of the side to move's opponent attacks the
given square, with the correct file-wrap guards ("pawn diagonal-attack
squares of the opposing color", §4.1; §9 declares the inverted-offset
revision of this check a fixed defect). For a white piece on square `sq`, a
black pawn on `sq + 7` attacks it unless `sq` is on the a-file, and a black
pawn on `sq + 9` attacks it unless `sq` is on the h-file. -/
def specBlackPawnAttacks (board : List Char) (sq : Nat) : Bool :=
  (decide (sq % 8 ≠ 0) && decide (sq + 7 < 64) && decide (board.getD (sq + 7) ' ' = 'p')) ||
  (decide (sq % 8 ≠ 7) && decide (sq + 9 < 64) && decide (board.getD (sq + 9) ' ' = 'p'))

/-! ## Class-attribute model of the shared `history` list (chess.py line 316)

`history: list = []` is a class attribute. `__init__` and `set_fen` assign
`board`, `turn`, `castling`, `enpassant`, `halfmove`, `fullmove` and the
derived flags (all instance attributes) but never `history`, so a fresh
instance resolves `self.history` to the class-level list. `update_turn`
(lines 573-579) calls `self.history.append(...)` or assigns
`self.history[-1]`, both of which mutate the resolved list in place;
`reset_board` (line 373) assigns `self.history = []`, creating a private
instance attribute. -/

/-- Reading `self.history`: the instance attribute if one was assigned,
otherwise the class-level list. -/
def resolveHistory (cls : List (List Char × List Char))
    (own : Option (List (List Char × List Char))) : List (List Char × List Char) :=
  own.getD cls

/-- An in-place mutation of the resolved `self.history` (as performed by
`list.append` / item assignment): it lands on the class list exactly when
the instance has no history attribute of its own. -/
def mutateHistory (cls : List (List Char × List Char))
    (own : Option (List (List Char × List Char)))
    (f : List (List Char × List Char) → List (List Char × List Char)) :
    List (List Char × List Char) × Option (List (List Char × List Char)) :=
  match own with
  | none => (f cls, none)
  | some h => (cls, some (f h))

/-- The history write of `update_turn` (chess.py lines 573-579) in the
attribute model: append `(move, "")` on white's turn, otherwise fill the
black slot of the last pair (appending a fresh pair when the history is
empty). -/
def updateTurnHistoryWrite (turn : List Char) (cls : List (List Char × List Char))
    (own : Option (List (List Char × List Char))) (move : List Char) :
    List (List Char × List Char) × Option (List (List Char × List Char)) :=
  if turn = S ("w") then mutateHistory cls own (fun h => h ++ [(move, [])])
  else if (resolveHistory cls own).length = 0 then
    mutateHistory cls own (fun h => h ++ [([], move)])
  else
    mutateHistory cls own (fun h => h.dropLast ++ [((h.getLastD ([], [])).1, move)])

/-- `Chess()` / `Chess(fen)` in the attribute model: construction assigns no
`history` attribute, so the new instance has none of its own. -/
def chessInitOwnHistory : Option (List (List Char × List Char)) :=
  none

/-- `reset_board` in the attribute model: `self.history = []` gives the
instance a fresh private empty list; the class list is untouched. -/
def resetBoardOwnHistory : Option (List (List Char × List Char)) :=
  some []

/-- `get_move_history()` (no argument) in the attribute model. -/
def getMoveHistoryResolved (cls : List (List Char × List Char))
    (own : Option (List (List Char × List Char))) : List (List Char × List Char) :=
  resolveHistory cls own

/-- Recording a sequence of plies through one instance: each ply performs the
`update_turn` history write with the given side to move. -/
def recordPlies (cls : List (List Char × List Char))
    (own : Option (List (List Char × List Char))) :
    List (List Char × List Char) →
    List (List Char × List Char) × Option (List (List Char × List Char))
  | [] => (cls, own)
  | p :: ps =>
    let r := updateTurnHistoryWrite p.1 cls own p.2
    recordPlies r.1 r.2 ps

/-! ## Concrete fixture states used by the theorems below -/

set_option maxRecDepth 20000

/-- Kings only, all four castling rights claimed (white to move). -/
def stC2 : GameState :=
  ((chessInit (S ("4k3/8/8/8/8/8/8/4K3 w KQkq - 0 1"))).toOption).getD classDefaults

/-- White king on e1 with the kingside-castling flag but no rook at all. -/
def stC3 : GameState :=
  ((chessInit (S ("4k3/8/8/8/8/8/8/4K3 w K - 0 1"))).toOption).getD classDefaults

/-- White king a2, black pawn b3, white rook h1, black king h8. -/
def stC4 : GameState :=
  ((chessInit (S ("7k/8/8/8/8/1p6/K7/7R w - - 0 1"))).toOption).getD classDefaults

/-- White may castle kingside and doing so delivers check to the king on f8. -/
def stC8a : GameState :=
  ((chessInit (S ("5k2/8/8/8/8/8/8/R3K2R w KQ - 0 1"))).toOption).getD classDefaults

/-- White may castle kingside while holding only the `K` castling flag. -/
def stC8b : GameState :=
  ((chessInit (S ("5k2/8/8/8/8/8/8/4K2R w K - 0 1"))).toOption).getD classDefaults

/-- A reconciler state in the middle of an en-passant-armed, promotion-armed
move attempt, used to show what the take-back branch leaves behind. -/
def stC7 : EventState :=
  ⟨classDefaults, 987654321, 987654321, 32, 32, 0, 5, 6, 7, some (S ("e5"), S ("f6")),
    some (S ("e5xf6")), some (S ("e5")), true, true, true, false, true, true, false, false,
    true, false, true, false, true⟩

/-- A reconciler state about to receive a 3-bit delta with no castling or
en-passant window armed. -/
def stC6 : EventState :=
  ⟨classDefaults, 0, 7, 2, 2, 0, 0, 0, 0, none, none, none, false, false, false, false,
    false, false, false, false, false, false, false, false, false⟩

/-! ## C9 -/

/-- C9: in the standard starting position, `all_legal_moves("w")` returns
exactly 20 moves. -/
theorem c9_starting_position_has_20_moves :
    (do
      let s ← chessInit START_FEN
      let ms ← allLegalMoves s (S ("w")) false
      Except.ok ms.length) = Except.ok 20 := by
  rfl

/-! ## C4 -/

/-- C4: the claim that no generated legal move leaves the mover's own king
attacked under the rules of chess fails on the code: from
`7k/8/8/8/8/1p6/K7/7R w - - 0 1`, the rook move `h1-g1` is kept in
`get_legal_moves(h1)`, yet after applying it to a scratch board the white
king on a2 is attacked by the black pawn on b3 (the spec-side pawn-attack
test with correct file-wrap guards), while the code's `is_square_attacked`
reports the king square unattacked — its `+9` pawn guard tests the a-file
instead of the h-file. -/
theorem c4_pawn_wrap_bug :
    (do
      let lm ← getLegalMoves stC4 7
      Except.ok (decide ((S ("h1-g1")) ∈ lm))) = Except.ok true ∧
    (do
      let tm ← makeTestMove stC4 stC4.board (S ("h1-g1")) (S ("w"))
      let ki ← pyIndex tm.2 'K'
      let att ← isSquareAttacked tm.1 (ki : Int) (some tm.2) none
      Except.ok (att, specBlackPawnAttacks tm.2 ki)) = Except.ok (false, true) := by
  exact ⟨by rfl, by rfl⟩

/-! ## C8 -/

/-- C8: the Rule Engine can raise out of `make_move` on a move it accepts as
legal. From `5k2/8/8/8/8/8/8/R3K2R w KQ - 0 1`, `check_move("O-O")` accepts
the castle, but `make_move("O-O")` raises `IndexError`: the move delivers
check, `update_turn` suffixes the text to `O-O+`, and
`algebraic_to_board_index("+")` indexes past the end of the string. From
`5k2/8/8/8/8/8/8/4K2R w K - 0 1` the accepted castle raises `ValueError`
inside `perform_castle` (`self.castling.remove("Q")` with no `Q` right). -/
theorem c8_accepted_castle_raises :
    checkMove stC8a OO (S ("w")) = Except.ok true ∧
    makeMove stC8a OO none = Except.error PyErr.indexError ∧
    checkMove stC8b OO (S ("w")) = Except.ok true ∧
    makeMove stC8b OO none = Except.error PyErr.valueError := by
  exact ⟨by rfl, by rfl, by rfl, by rfl⟩

/-! ## C6 -/

/-- C6: any sensor delta changing more than 2 squares while neither the
castling window nor the en-passant window is armed sets
`force_fix_board_flag` (the Desync state), and with it both the
castling-wait block and the move-classification block of the pass are
disabled, so the delta is never classified as a completed move and the Rule
Engine state is untouched. -/
theorem c6_large_delta_forces_desync (st : EventState)
    (hd : deltaBoardPositions st.prev_board_status st.board_status > 2)
    (hc : st.potential_castle = false)
    (he : st.potential_en_passant = false) :
    (deltaDispatch st).force_fix_board_flag = true ∧
    moveScanGuard (deltaDispatch st) = false ∧
    castlingWaitGuard (deltaDispatch st) = false ∧
    (deltaDispatch st).move_complete_flag = st.move_complete_flag ∧
    (deltaDispatch st).final_move = st.final_move ∧
    (deltaDispatch st).game = st.game := by
  unfold deltaDispatch moveScanGuard castlingWaitGuard
  simp only [hc, he, false_and, and_false, if_false, ite_false, false_or]
  have h1 : deltaBoardPositions st.prev_board_status st.board_status > 1 := by omega
  have h2 : ¬ (deltaBoardPositions st.prev_board_status st.board_status = 2) := by omega
  simp [h1, h2, hd]

/-- Witness for C6 at a concrete reconciler state (3 changed bits, no armed
windows). -/
theorem c6_witness :
    deltaBoardPositions stC6.prev_board_status stC6.board_status > 2 ∧
    ((deltaDispatch stC6).force_fix_board_flag = true ∧
      moveScanGuard (deltaDispatch stC6) = false ∧
      castlingWaitGuard (deltaDispatch stC6) = false ∧
      (deltaDispatch stC6).move_complete_flag = stC6.move_complete_flag ∧
      (deltaDispatch stC6).final_move = stC6.final_move ∧
      (deltaDispatch stC6).game = stC6.game) :=
  ⟨by decide, c6_large_delta_forces_desync stC6 (by decide) rfl rfl⟩

/-! ## C7 -/

/-- C7 counterexample: the take-back branch does not clear the en-passant or
promotion watches — from a state with `potential_en_passant` and
`potential_promotion` armed, both are still armed after the branch runs, so
the branch does not clear "all per-move context (... promotion and
en-passant watches)" as claimed. -/
theorem c7_counterexample :
    (takeBackBranch stC7).potential_en_passant = true ∧
    (takeBackBranch stC7).potential_promotion = true := by
  exact ⟨rfl, rfl⟩

/-- C7 as amended: when the snapshot returns exactly to the pre-sequence
snapshot, the take-back branch cancels the pending move (pending move,
piece-lifted and capture state, castling context), returns the tracker to
its idle configuration, and makes no Rule Engine call (the `GameState` is
unchanged) — but it leaves the en-passant and promotion watches armed. -/
theorem c7_take_back_clears_move_context (st : EventState) :
    (takeBackBranch st).move_complete_flag = false ∧
    (takeBackBranch st).final_move = none ∧
    (takeBackBranch st).move_text = none ∧
    (takeBackBranch st).original_position = none ∧
    (takeBackBranch st).piece_removed = false ∧
    (takeBackBranch st).capture_flag = false ∧
    (takeBackBranch st).board_state_piece_lifted = 0 ∧
    (takeBackBranch st).board_state_capturing_piece = 0 ∧
    (takeBackBranch st).board_state_captured_piece = 0 ∧
    (takeBackBranch st).position_changed_flag = false ∧
    (takeBackBranch st).potential_castle = false ∧
    (takeBackBranch st).is_castling = false ∧
    (takeBackBranch st).game = st.game ∧
    (takeBackBranch st).potential_en_passant = st.potential_en_passant ∧
    (takeBackBranch st).potential_promotion = st.potential_promotion := by
  refine ⟨rfl, rfl, rfl, rfl, rfl, rfl, rfl, rfl, rfl, rfl, rfl, rfl, rfl, rfl, rfl⟩

/-! ## General lemmas about the `Except` embedding -/

/-- Inversion for a successful monadic bind. -/
theorem bind_ok_elim {α β : Type} {x : Except PyErr α} {f : α → Except PyErr β} {b : β}
    (h : (x >>= f) = Except.ok b) : ∃ a, x = Except.ok a ∧ f a = Except.ok b := by
  cases x with
  | error e => exact absurd h (by simp [Bind.bind, Except.bind])
  | ok a => exact ⟨a, rfl, h⟩

/-- Reduction of a bind whose first component is a known success. -/
@[simp]
theorem pyBind_ok {α β : Type} (a : α) (f : α → Except PyErr β) :
    (Except.ok a >>= f : Except PyErr β) = f a := rfl

/-- `update_turn`'s status block never touches the castling rights. -/
theorem updateTurnStatus_castling (s : GameState) (nt move0 : List Char)
    (r : GameState × List Char) (h : updateTurnStatus s nt move0 = Except.ok r) :
    r.1.castling = s.castling := by
  unfold updateTurnStatus at h
  obtain ⟨chk, hchk, h⟩ := bind_ok_elim h
  split at h
  · obtain ⟨cm, _, h⟩ := bind_ok_elim h
    split at h <;> (cases h; rfl)
  · obtain ⟨sm, _, h⟩ := bind_ok_elim h
    split at h <;> (cases h; rfl)

/-- `update_turn`'s history block never touches the castling rights. -/
theorem updateTurnHistory_castling (s : GameState) (move : List Char) (s2 : GameState)
    (h : updateTurnHistory s move = Except.ok s2) : s2.castling = s.castling := by
  unfold updateTurnHistory at h
  split at h
  · cases h; rfl
  · split at h
    · cases h; rfl
    · obtain ⟨lastE, _, h⟩ := bind_ok_elim h
      obtain ⟨h2, _, h⟩ := bind_ok_elim h
      cases h; rfl

/-- `update_turn`'s clock block never touches the castling rights. -/
theorem updateTurnClocks_castling (s : GameState) (move : List Char) (p : Bool) (s2 : GameState)
    (h : updateTurnClocks s move p = Except.ok s2) : s2.castling = s.castling := by
  unfold updateTurnClocks at h
  dsimp only at h
  split at h
  · cases h; split <;> rfl
  · obtain ⟨c2, _, h⟩ := bind_ok_elim h
    split at h
    · cases h; split <;> rfl
    · obtain ⟨ti, _, h⟩ := bind_ok_elim h
      obtain ⟨pc, _, h⟩ := bind_ok_elim h
      split at h
      · obtain ⟨fsq, _, h⟩ := bind_ok_elim h
        obtain ⟨tsq, _, h⟩ := bind_ok_elim h
        split at h
        · obtain ⟨ep, _, h⟩ := bind_ok_elim h
          cases h; split <;> rfl
        · cases h; split <;> rfl
      · cases h; split <;> rfl

/-- `update_turn` never touches the castling rights. -/
theorem updateTurn_castling (s : GameState) (move : List Char) (p : Bool) (s2 : GameState)
    (h : updateTurn s move p = Except.ok s2) : s2.castling = s.castling := by
  unfold updateTurn at h
  obtain ⟨step1, hstep, h⟩ := bind_ok_elim h
  obtain ⟨sB, hhist, h⟩ := bind_ok_elim h
  have e1 := updateTurnStatus_castling _ _ _ _ hstep
  have e2 := updateTurnHistory_castling _ _ _ hhist
  have e3 := updateTurnClocks_castling _ _ _ _ h
  simp only [e3, e2, e1]

/-! ## C1 -/

/-- C1 counterexample: from the starting position, `make_move("a2-a8=Q")`
returns `True` and mutates the board even though `a2-a8=Q` is not one of
`get_legal_moves(a2) = [a2-a3, a2-a4]`: the promotion path is entered before
any legal-move check. -/
theorem c1_counterexample_promotion_bypass :
    (do
      let s ← chessInit START_FEN
      let r ← makeMove s (S ("a2-a8=Q")) none
      let lm ← getLegalMoves s 8
      Except.ok (r.1, lm, decide (r.2.board = s.board)))
      = Except.ok (true, [S ("a2-a3"), S ("a2-a4")], false) := by
  rfl

/-- C1 as amended: `make_move` returns `False` with the game state unchanged
when the notation is malformed, when an explicit source square holds a piece
not owned by `side`, and when a move that is recognised as neither
en passant nor promotion is absent from the legal-move set — but en-passant-
and promotion-classified moves are applied without consulting
`get_legal_moves(source)`. -/
theorem c1_rejections_leave_state_unchanged :
    (∀ (s : GameState) (move side : List Char),
      validateMoveText move = false →
      makeMove s move (some side) = Except.ok (false, s)) ∧
    (∀ (s : GameState) (move side : List Char) (fs : Int) (c : Char),
      move ≠ OO → move ≠ OOO →
      a2b (pySlice move 0 2) = Except.ok fs →
      pyGet s.board fs = Except.ok c →
      ((c.isUpper ∧ side ≠ S ("w")) ∨ (c.isLower ∧ side ≠ S ("b"))) →
      makeMove s move (some side) = Except.ok (false, s)) ∧
    (∀ (s : GameState) (move side : List Char),
      move ≠ OO → move ≠ OOO →
      (∃ fs c, a2b (pySlice move 0 2) = Except.ok fs ∧ pyGet s.board fs = Except.ok c) →
      isEnpassant s move = Except.ok false →
      isPromotion s move = Except.ok false →
      checkMove s move side = Except.ok false →
      makeMove s move (some side) = Except.ok (false, s)) := by
  refine ⟨?_, ?_, ?_⟩
  · intro s move side h
    unfold makeMove
    simp [h]
  · intro s move side fs c h1 h2 h3 h4 h5
    unfold makeMove
    by_cases hv : validateMoveText move
    · simp [hv, h1, h2, h3, h4]
      intro hA hB
      rcases h5 with ⟨hu, hs⟩ | ⟨hu, hs⟩
      · exact absurd (hA hu) hs
      · exact absurd (hB hu) hs
    · simp [hv]
  · intro s move side h1 h2 h3 h4 h5 h6
    obtain ⟨fs, c, h3a, h3b⟩ := h3
    unfold makeMove
    by_cases hv : validateMoveText move
    · simp [hv, h1, h2, h3a, h3b, h4, h5, h6]
    · simp [hv]

/-- Witness for C1: a malformed notation and a well-formed but illegal knight
move are both rejected from the starting position with the state unchanged. -/
theorem c1_witness :
    validateMoveText (S ("e9a2")) = false ∧
    makeMove startSt (S ("e9a2")) (some (S ("w"))) = Except.ok (false, startSt) ∧
    checkMove startSt (S ("b1-b4")) (S ("w")) = Except.ok false ∧
    makeMove startSt (S ("b1-b4")) (some (S ("w"))) = Except.ok (false, startSt) :=
  ⟨by rfl,
   c1_rejections_leave_state_unchanged.1 startSt (S ("e9a2")) (S ("w")) (by rfl),
   by rfl,
   c1_rejections_leave_state_unchanged.2.2 startSt (S ("b1-b4")) (S ("w"))
     (by decide) (by decide) ⟨1, 'N', by rfl, by rfl⟩ (by rfl) (by rfl) (by rfl)⟩

/-! ## C2 -/

/-- C2 counterexample: after white plays the king move `e1-e2` (accepted by
`make_move`), the castling-rights list is still `KQkq`: no code path removes
rights when a king or rook leaves its home square. -/
theorem c2_counterexample_king_move_keeps_rights :
    pyGet stC2.board 4 = Except.ok 'K' ∧
    (do
      let r ← makeMove stC2 (S ("e1-e2")) none
      Except.ok (r.1, r.2.castling)) = Except.ok (true, S ("KQkq")) := by
  exact ⟨by rfl, by rfl⟩

/-- C2 as amended: castling rights are changed only by `perform_castle` while
executing `O-O`/`O-O-O`; every successful `make_move` of any other move —
including king moves, rook moves and rook captures — leaves the
castling-rights list exactly as it was. -/
theorem c2_non_castle_moves_preserve_rights (s : GameState) (move : List Char)
    (sideArg : Option (List Char)) (p : Bool × GameState)
    (h : makeMove s move sideArg = Except.ok p)
    (h1 : move ≠ OO) (h2 : move ≠ OOO) : p.2.castling = s.castling := by
  unfold makeMove at h
  by_cases hv : validateMoveText move
  · simp only [hv, h1, h2, not_true, not_false_iff, if_true, if_false, ite_true, ite_false,
      Bool.not_true, or_self, if_neg, pyBind_ok] at h
    obtain ⟨fs, _, h⟩ := bind_ok_elim h
    obtain ⟨c, _, h⟩ := bind_ok_elim h
    split at h
    · cases h; rfl
    · obtain ⟨isEp, _, h⟩ := bind_ok_elim h
      split at h
      · obtain ⟨fs2, _, h⟩ := bind_ok_elim h
        obtain ⟨ts2, _, h⟩ := bind_ok_elim h
        obtain ⟨b1, _, h⟩ := bind_ok_elim h
        obtain ⟨b2, _, h⟩ := bind_ok_elim h
        obtain ⟨enp, _, h⟩ := bind_ok_elim h
        obtain ⟨b3, _, h⟩ := bind_ok_elim h
        obtain ⟨su, hsu, h⟩ := bind_ok_elim h
        cases h
        have e := updateTurn_castling _ _ _ _ hsu
        exact e
      · obtain ⟨isProm, _, h⟩ := bind_ok_elim h
        split at h
        · obtain ⟨pr, _, h⟩ := bind_ok_elim h
          obtain ⟨su, hsu, h⟩ := bind_ok_elim h
          cases h
          have e := updateTurn_castling _ _ _ _ hsu
          exact e
        · obtain ⟨okM, _, h⟩ := bind_ok_elim h
          split at h
          · obtain ⟨fs3, _, h⟩ := bind_ok_elim h
            obtain ⟨ts3, _, h⟩ := bind_ok_elim h
            obtain ⟨c3, _, h⟩ := bind_ok_elim h
            obtain ⟨b1, _, h⟩ := bind_ok_elim h
            obtain ⟨b2, _, h⟩ := bind_ok_elim h
            obtain ⟨su, hsu, h⟩ := bind_ok_elim h
            cases h
            have e := updateTurn_castling _ _ _ _ hsu
            exact e
          · cases h; rfl
  · simp [hv] at h
    rw [← h]

/-- The state reached by the C2 king move. -/
def c2After : Bool × GameState :=
  ((makeMove stC2 (S ("e1-e2")) none).toOption).getD (false, stC2)

/-- Witness for C2 at the concrete king move `e1-e2`. -/
theorem c2_witness :
    makeMove stC2 (S ("e1-e2")) none = Except.ok c2After ∧
    c2After.2.castling = stC2.castling :=
  ⟨by rfl,
   c2_non_castle_moves_preserve_rights stC2 (S ("e1-e2")) none c2After (by rfl)
     (by decide) (by decide)⟩

/-! ## C3 -/

/-- White kingside: all conditions `check_castle` actually enforces. -/
theorem checkCastle_wk_conditions (s : GameState)
    (h : checkCastle s 6 (S ("w")) = Except.ok true) :
    pyIndex s.board 'K' = Except.ok 4 ∧ 'K' ∈ s.castling ∧
    pyGet s.board 5 = Except.ok ' ' ∧ pyGet s.board 6 = Except.ok ' ' ∧
    isSquareAttacked s 4 none (some (S ("w"))) = Except.ok false ∧
    isSquareAttacked s 5 none (some (S ("w"))) = Except.ok false ∧
    isSquareAttacked s 6 none (some (S ("w"))) = Except.ok false := by
  unfold checkCastle at h
  rw [if_pos rfl] at h
  obtain ⟨ki, hki, h⟩ := bind_ok_elim h
  split at h
  · exact absurd h (by simp)
  · rename_i hki4
    split at h
    · split at h
      · exact absurd h (by simp)
      · rename_i hmem
        obtain ⟨c5, hc5, h⟩ := bind_ok_elim h
        obtain ⟨c6, hc6, h⟩ := bind_ok_elim h
        split at h
        · exact absurd h (by simp)
        · rename_i hemp
          obtain ⟨a4, ha4, h⟩ := bind_ok_elim h
          split at h
          · exact absurd h (by simp)
          · rename_i ha4f
            obtain ⟨a5, ha5, h⟩ := bind_ok_elim h
            split at h
            · exact absurd h (by simp)
            · rename_i ha5f
              obtain ⟨a6, ha6, h⟩ := bind_ok_elim h
              split at h
              · exact absurd h (by simp)
              · rename_i ha6f
                simp only [not_not] at hki4
                push_neg at hemp
                simp only [Bool.not_eq_true] at ha4f ha5f ha6f
                subst hki4
                refine ⟨hki, by simpa using hmem, ?_, ?_, ?_, ?_, ?_⟩
                · rw [hc5, hemp.1]
                · rw [hc6, hemp.2]
                · rw [ha4, ha4f]
                · rw [ha5, ha5f]
                · rw [ha6, ha6f]
    · rename_i h66
      exact absurd rfl h66

/-- White queenside: all conditions `check_castle` actually enforces. -/
theorem checkCastle_wq_conditions (s : GameState)
    (h : checkCastle s 2 (S ("w")) = Except.ok true) :
    pyIndex s.board 'K' = Except.ok 4 ∧ 'Q' ∈ s.castling ∧
    pyGet s.board 1 = Except.ok ' ' ∧ pyGet s.board 2 = Except.ok ' ' ∧
    pyGet s.board 3 = Except.ok ' ' ∧
    isSquareAttacked s 2 none (some (S ("w"))) = Except.ok false ∧
    isSquareAttacked s 3 none (some (S ("w"))) = Except.ok false ∧
    isSquareAttacked s 4 none (some (S ("w"))) = Except.ok false := by
  unfold checkCastle at h
  rw [if_pos rfl] at h
  obtain ⟨ki, hki, h⟩ := bind_ok_elim h
  split at h
  · exact absurd h (by simp)
  · rename_i hki4
    split at h
    · rename_i h26
      exact absurd h26 (by decide)
    · split at h
      · exact absurd h (by simp)
      · rename_i hmem
        obtain ⟨c1, hc1, h⟩ := bind_ok_elim h
        obtain ⟨c2, hc2, h⟩ := bind_ok_elim h
        obtain ⟨c3, hc3, h⟩ := bind_ok_elim h
        split at h
        · exact absurd h (by simp)
        · rename_i hemp
          obtain ⟨a2, ha2, h⟩ := bind_ok_elim h
          split at h
          · exact absurd h (by simp)
          · rename_i ha2f
            obtain ⟨a3, ha3, h⟩ := bind_ok_elim h
            split at h
            · exact absurd h (by simp)
            · rename_i ha3f
              obtain ⟨a4, ha4, h⟩ := bind_ok_elim h
              split at h
              · exact absurd h (by simp)
              · rename_i ha4f
                simp only [not_not] at hki4
                push_neg at hemp
                simp only [Bool.not_eq_true] at ha2f ha3f ha4f
                subst hki4
                refine ⟨hki, by simpa using hmem, ?_, ?_, ?_, ?_, ?_, ?_⟩
                · rw [hc1, hemp.1]
                · rw [hc2, hemp.2.1]
                · rw [hc3, hemp.2.2]
                · rw [ha2, ha2f]
                · rw [ha3, ha3f]
                · rw [ha4, ha4f]

/-- Black kingside: all conditions `check_castle` actually enforces. -/
theorem checkCastle_bk_conditions (s : GameState)
    (h : checkCastle s 62 (S ("b")) = Except.ok true) :
    pyIndex s.board 'k' = Except.ok 60 ∧ 'k' ∈ s.castling ∧
    pyGet s.board 61 = Except.ok ' ' ∧ pyGet s.board 62 = Except.ok ' ' ∧
    isSquareAttacked s 60 none (some (S ("b"))) = Except.ok false ∧
    isSquareAttacked s 61 none (some (S ("b"))) = Except.ok false ∧
    isSquareAttacked s 62 none (some (S ("b"))) = Except.ok false := by
  unfold checkCastle at h
  rw [if_neg (by decide)] at h
  obtain ⟨ki, hki, h⟩ := bind_ok_elim h
  split at h
  · exact absurd h (by simp)
  · rename_i hki60
    split at h
    · split at h
      · exact absurd h (by simp)
      · rename_i hmem
        obtain ⟨c61, hc61, h⟩ := bind_ok_elim h
        obtain ⟨c62, hc62, h⟩ := bind_ok_elim h
        split at h
        · exact absurd h (by simp)
        · rename_i hemp
          obtain ⟨a60, ha60, h⟩ := bind_ok_elim h
          split at h
          · exact absurd h (by simp)
          · rename_i ha60f
            obtain ⟨a61, ha61, h⟩ := bind_ok_elim h
            split at h
            · exact absurd h (by simp)
            · rename_i ha61f
              obtain ⟨a62, ha62, h⟩ := bind_ok_elim h
              split at h
              · exact absurd h (by simp)
              · rename_i ha62f
                simp only [not_not] at hki60
                push_neg at hemp
                simp only [Bool.not_eq_true] at ha60f ha61f ha62f
                subst hki60
                refine ⟨hki, by simpa using hmem, ?_, ?_, ?_, ?_, ?_⟩
                · rw [hc61, hemp.1]
                · rw [hc62, hemp.2]
                · rw [ha60, ha60f]
                · rw [ha61, ha61f]
                · rw [ha62, ha62f]
    · rename_i h66
      exact absurd rfl h66

/-- Black queenside: all conditions `check_castle` actually enforces. -/
theorem checkCastle_bq_conditions (s : GameState)
    (h : checkCastle s 58 (S ("b")) = Except.ok true) :
    pyIndex s.board 'k' = Except.ok 60 ∧ 'q' ∈ s.castling ∧
    pyGet s.board 57 = Except.ok ' ' ∧ pyGet s.board 58 = Except.ok ' ' ∧
    pyGet s.board 59 = Except.ok ' ' ∧
    isSquareAttacked s 58 none (some (S ("b"))) = Except.ok false ∧
    isSquareAttacked s 59 none (some (S ("b"))) = Except.ok false ∧
    isSquareAttacked s 60 none (some (S ("b"))) = Except.ok false := by
  unfold checkCastle at h
  rw [if_neg (by decide)] at h
  obtain ⟨ki, hki, h⟩ := bind_ok_elim h
  split at h
  · exact absurd h (by simp)
  · rename_i hki60
    split at h
    · rename_i h26
      exact absurd h26 (by decide)
    · split at h
      · exact absurd h (by simp)
      · rename_i hmem
        obtain ⟨c57, hc57, h⟩ := bind_ok_elim h
        obtain ⟨c58, hc58, h⟩ := bind_ok_elim h
        obtain ⟨c59, hc59, h⟩ := bind_ok_elim h
        split at h
        · exact absurd h (by simp)
        · rename_i hemp
          obtain ⟨a58, ha58, h⟩ := bind_ok_elim h
          split at h
          · exact absurd h (by simp)
          · rename_i ha58f
            obtain ⟨a59, ha59, h⟩ := bind_ok_elim h
            split at h
            · exact absurd h (by simp)
            · rename_i ha59f
              obtain ⟨a60, ha60, h⟩ := bind_ok_elim h
              split at h
              · exact absurd h (by simp)
              · rename_i ha60f
                simp only [not_not] at hki60
                push_neg at hemp
                simp only [Bool.not_eq_true] at ha58f ha59f ha60f
                subst hki60
                refine ⟨hki, by simpa using hmem, ?_, ?_, ?_, ?_, ?_, ?_⟩
                · rw [hc57, hemp.1]
                · rw [hc58, hemp.2.1]
                · rw [hc59, hemp.2.2]
                · rw [ha58, ha58f]
                · rw [ha59, ha59f]
                · rw [ha60, ha60f]

/-- C3 counterexample: with the white king alone on e1 and the `K` right set
(`4k3/8/8/8/8/8/8/4K3 w K - 0 1`), `check_castle(6, "w")` returns `True` and
`O-O` is produced by the king generator even though h1 holds no rook. -/
theorem c3_counterexample_castle_without_rook :
    checkCastle stC3 6 (S ("w")) = Except.ok true ∧
    pyGet stC3.board 7 = Except.ok ' ' ∧
    (do
      let ms ← generateKingMoves stC3 4
      Except.ok (decide (OO ∈ ms))) = Except.ok true := by
  exact ⟨by rfl, by rfl, by rfl⟩

/-- C3 as amended: `check_castle` returns true only when the king is on its
home square, the matching rights flag is set, the squares between the king
and the rook's home square are empty, and the king's start/transit/
destination squares are unattacked — the rook's presence on its home square
is not checked. -/
theorem c3_check_castle_enforced_conditions (s : GameState) :
    (checkCastle s 6 (S ("w")) = Except.ok true →
      pyIndex s.board 'K' = Except.ok 4 ∧ 'K' ∈ s.castling ∧
      pyGet s.board 5 = Except.ok ' ' ∧ pyGet s.board 6 = Except.ok ' ' ∧
      isSquareAttacked s 4 none (some (S ("w"))) = Except.ok false ∧
      isSquareAttacked s 5 none (some (S ("w"))) = Except.ok false ∧
      isSquareAttacked s 6 none (some (S ("w"))) = Except.ok false) ∧
    (checkCastle s 2 (S ("w")) = Except.ok true →
      pyIndex s.board 'K' = Except.ok 4 ∧ 'Q' ∈ s.castling ∧
      pyGet s.board 1 = Except.ok ' ' ∧ pyGet s.board 2 = Except.ok ' ' ∧
      pyGet s.board 3 = Except.ok ' ' ∧
      isSquareAttacked s 2 none (some (S ("w"))) = Except.ok false ∧
      isSquareAttacked s 3 none (some (S ("w"))) = Except.ok false ∧
      isSquareAttacked s 4 none (some (S ("w"))) = Except.ok false) ∧
    (checkCastle s 62 (S ("b")) = Except.ok true →
      pyIndex s.board 'k' = Except.ok 60 ∧ 'k' ∈ s.castling ∧
      pyGet s.board 61 = Except.ok ' ' ∧ pyGet s.board 62 = Except.ok ' ' ∧
      isSquareAttacked s 60 none (some (S ("b"))) = Except.ok false ∧
      isSquareAttacked s 61 none (some (S ("b"))) = Except.ok false ∧
      isSquareAttacked s 62 none (some (S ("b"))) = Except.ok false) ∧
    (checkCastle s 58 (S ("b")) = Except.ok true →
      pyIndex s.board 'k' = Except.ok 60 ∧ 'q' ∈ s.castling ∧
      pyGet s.board 57 = Except.ok ' ' ∧ pyGet s.board 58 = Except.ok ' ' ∧
      pyGet s.board 59 = Except.ok ' ' ∧
      isSquareAttacked s 58 none (some (S ("b"))) = Except.ok false ∧
      isSquareAttacked s 59 none (some (S ("b"))) = Except.ok false ∧
      isSquareAttacked s 60 none (some (S ("b"))) = Except.ok false) :=
  ⟨checkCastle_wk_conditions s, checkCastle_wq_conditions s,
   checkCastle_bk_conditions s, checkCastle_bq_conditions s⟩

/-- Witness for C3 at the concrete state `stC3`. -/
theorem c3_witness :
    checkCastle stC3 6 (S ("w")) = Except.ok true ∧
    (pyIndex stC3.board 'K' = Except.ok 4 ∧ 'K' ∈ stC3.castling ∧
      pyGet stC3.board 5 = Except.ok ' ' ∧ pyGet stC3.board 6 = Except.ok ' ' ∧
      isSquareAttacked stC3 4 none (some (S ("w"))) = Except.ok false ∧
      isSquareAttacked stC3 5 none (some (S ("w"))) = Except.ok false ∧
      isSquareAttacked stC3 6 none (some (S ("w"))) = Except.ok false) :=
  ⟨by rfl, (c3_check_castle_enforced_conditions stC3).1 (by rfl)⟩

/-! ## C10 -/

/-- Recording plies through an instance that has no history attribute of its
own never creates one: every write lands on the class-level list. -/
theorem recordPlies_keeps_no_own (plies : List (List Char × List Char)) :
    ∀ cls, (recordPlies cls none plies).2 = none := by
  induction plies with
  | nil => intro cls; rfl
  | cons p ps ih =>
    intro cls
    unfold recordPlies updateTurnHistoryWrite mutateHistory
    split
    · exact ih _
    · split
      · exact ih _
      · exact ih _

/-- C10: the class-level `history` list is shared between instances.
Recording any sequence of plies through a fresh instance (which has no
history attribute of its own) mutates only the class list; `__init__` and
`set_fen` assign the board, turn, castling, en-passant, clock and flag
attributes but never `history`, so a subsequently constructed instance's
`get_move_history()` returns exactly the recorded moves (the same list the
recording instance sees), until `reset_board` assigns that instance a fresh
empty list. -/
theorem c10_class_level_history_is_shared :
    (∀ (cls : List (List Char × List Char)) (plies : List (List Char × List Char)),
      (recordPlies cls none plies).2 = none ∧
      getMoveHistoryResolved (recordPlies cls none plies).1 chessInitOwnHistory
        = getMoveHistoryResolved (recordPlies cls none plies).1 (recordPlies cls none plies).2 ∧
      getMoveHistoryResolved (recordPlies cls none plies).1 resetBoardOwnHistory = []) ∧
    (∀ (s : GameState) (fen : List Char) (s2 : GameState),
      setFen s fen = Except.ok s2 → s2.history = s.history ∧ s2.result = s.result) := by
  constructor
  · intro cls plies
    refine ⟨recordPlies_keeps_no_own plies cls, ?_, rfl⟩
    rw [recordPlies_keeps_no_own plies cls]
    rfl
  · intro s fen s2 h
    unfold setFen at h
    obtain ⟨t, _, h⟩ := bind_ok_elim h
    obtain ⟨ca, _, h⟩ := bind_ok_elim h
    obtain ⟨en, _, h⟩ := bind_ok_elim h
    obtain ⟨f4, _, h⟩ := bind_ok_elim h
    obtain ⟨hm, _, h⟩ := bind_ok_elim h
    obtain ⟨f5, _, h⟩ := bind_ok_elim h
    obtain ⟨fm, _, h⟩ := bind_ok_elim h
    obtain ⟨f0, _, h⟩ := bind_ok_elim h
    obtain ⟨bd, _, h⟩ := bind_ok_elim h
    cases h
    exact ⟨rfl, rfl⟩

/-- Witness for C10: constructing a `Chess()` over existing class history
leaves it intact, and `set_fen` on a concrete instance preserves `history`
and `result`. -/
theorem c10_witness :
    setFen classDefaults START_FEN = Except.ok startSt ∧
    (startSt.history = classDefaults.history ∧ startSt.result = classDefaults.result) :=
  ⟨by rfl, c10_class_level_history_is_shared.2 classDefaults START_FEN startSt (by rfl)⟩

/-! ## C5 groundwork: primitive round-trip lemmas -/

/-- `pyGet` at a nonnegative in-range index. -/
theorem pyGet_some {α : Type} {l : List α} {i : Int} {a : α} (h0 : 0 ≤ i)
    (h : l[i.toNat]? = some a) : pyGet l i = Except.ok a := by
  have hlt : i.toNat < l.length := by
    by_contra hc
    rw [List.getElem?_eq_none (by omega)] at h
    exact Option.noConfusion h
  unfold pyGet
  rw [dif_pos ⟨h0, by omega⟩]
  rw [List.getElem?_eq_getElem hlt] at h
  simpa [List.get_eq_getElem] using (Option.some.inj h).symm ▸ rfl

/-- `pyStore` at a nonnegative in-range index. -/
theorem pyStore_some {α : Type} (l : List α) (i : Int) (v : α) (h0 : 0 ≤ i)
    (h1 : i < (l.length : Int)) : pyStore l i v = Except.ok (l.set i.toNat v) := by
  unfold pyStore
  rw [if_pos ⟨h0, h1⟩]

/-- Splitting on whitespace walks over a whitespace-free prefix. -/
theorem pySplitWsAux_nonws (t : List Char) (h : ∀ c ∈ t, ¬ pyIsSpace c) :
    ∀ (rest acc : List Char), pySplitWsAux (t ++ rest) acc = pySplitWsAux rest (t.reverse ++ acc) := by
  induction t with
  | nil => intro rest acc; simp
  | cons c cs ih =>
    intro rest acc
    have hc : ¬ pyIsSpace c := h c (by simp)
    have step1 : pySplitWsAux ((c :: cs) ++ rest) acc = pySplitWsAux (cs ++ rest) (c :: acc) := by
      rw [List.cons_append, pySplitWsAux.eq_def]
      dsimp only
      rw [if_neg hc]
    rw [step1, ih (fun x hx => h x (by simp [hx])) rest (c :: acc)]
    congr 1
    simp

/-- Tokens joined by single spaces. -/
def joinSp : List (List Char) → List Char
  | [] => []
  | [t] => t
  | t :: ts => t ++ ' ' :: joinSp ts

/-- Python `str.split()` recovers the tokens of a single-space join of
nonempty whitespace-free tokens. -/
theorem pySplitWs_joinSp : ∀ ts : List (List Char), ts ≠ [] →
    (∀ t ∈ ts, t ≠ [] ∧ ∀ c ∈ t, ¬ pyIsSpace c) →
    pySplitWs (joinSp ts) = ts := by
  intro ts
  induction ts with
  | nil => intro h; exact absurd rfl h
  | cons t ts ih =>
    intro _ hp
    obtain ⟨hne, hws⟩ := hp t (by simp)
    cases ts with
    | nil =>
      show pySplitWsAux (joinSp [t]) [] = [t]
      have : joinSp [t] = t ++ [] := by simp [joinSp]
      rw [this, pySplitWsAux_nonws t hws [] []]
      unfold pySplitWsAux
      simp [hne]
    | cons t2 ts2 =>
      show pySplitWsAux (joinSp (t :: t2 :: ts2)) [] = t :: t2 :: ts2
      have : joinSp (t :: t2 :: ts2) = t ++ ' ' :: joinSp (t2 :: ts2) := by rfl
      rw [this, pySplitWsAux_nonws t hws _ []]
      unfold pySplitWsAux
      rw [if_pos (by simp [pyIsSpace])]
      have hrev : (t.reverse ++ []).isEmpty = false := by
        simp [List.isEmpty_iff]
        exact hne
      rw [if_neg (by simp [hrev]; simp [List.isEmpty_iff] at hrev; exact hrev)]
      have := ih (by simp) (fun x hx => hp x (by simp [hx]))
      show (t.reverse ++ []).reverse :: pySplitWsAux (joinSp (t2 :: ts2)) [] = _
      rw [show pySplitWsAux (joinSp (t2 :: ts2)) [] = pySplitWs (joinSp (t2 :: ts2)) from rfl, this]
      simp

/-- Splitting on a separator walks over a separator-free prefix. -/
theorem pySplitOnAux_noSep (sep : Char) (t : List Char) (h : sep ∉ t) :
    ∀ (rest acc : List Char),
      pySplitOnAux sep (t ++ rest) acc = pySplitOnAux sep rest (t.reverse ++ acc) := by
  induction t with
  | nil => intro rest acc; simp
  | cons c cs ih =>
    intro rest acc
    have hc : c ≠ sep := by rintro rfl; exact h (by simp)
    have step1 : pySplitOnAux sep ((c :: cs) ++ rest) acc = pySplitOnAux sep (cs ++ rest) (c :: acc) := by
      rw [List.cons_append, pySplitOnAux.eq_def]
      dsimp only
      rw [if_neg hc]
    rw [step1, ih (fun hx => h (by simp [hx])) rest (c :: acc)]
    congr 1
    simp

/-- Fields joined by a separator character. -/
def joinSep (sep : Char) : List (List Char) → List Char
  | [] => []
  | [t] => t
  | t :: ts => t ++ sep :: joinSep sep ts

/-- Python `str.split(sep)` recovers the fields of a separator join when no
field contains the separator. -/
theorem pySplitOn_joinSep (sep : Char) : ∀ ts : List (List Char), ts ≠ [] →
    (∀ t ∈ ts, sep ∉ t) → pySplitOn (joinSep sep ts) sep = ts := by
  intro ts
  induction ts with
  | nil => intro h; exact absurd rfl h
  | cons t ts ih =>
    intro _ hp
    cases ts with
    | nil =>
      show pySplitOnAux sep (joinSep sep [t]) [] = [t]
      have : joinSep sep [t] = t ++ [] := by simp [joinSep]
      rw [this, pySplitOnAux_noSep sep t (hp t (by simp)) [] []]
      unfold pySplitOnAux
      simp
    | cons t2 ts2 =>
      show pySplitOnAux sep (joinSep sep (t :: t2 :: ts2)) [] = t :: t2 :: ts2
      have : joinSep sep (t :: t2 :: ts2) = t ++ sep :: joinSep sep (t2 :: ts2) := by rfl
      rw [this, pySplitOnAux_noSep sep t (hp t (by simp)) _ []]
      unfold pySplitOnAux
      rw [if_pos rfl]
      have := ih (by simp) (fun x hx => hp x (by simp [hx]))
      show (t.reverse ++ []).reverse :: pySplitOnAux sep (joinSep sep (t2 :: ts2)) [] = _
      rw [show pySplitOnAux sep (joinSep sep (t2 :: ts2)) [] = pySplitOn (joinSep sep (t2 :: ts2)) sep from rfl, this]
      simp

/-- Digit characters of a decimal print. -/
theorem natChars_digits : ∀ n : Nat, ∀ c ∈ natChars n, c.isDigit := by
  intro n
  induction n using Nat.strong_induction_on with
  | _ n ih =>
    rw [natChars]
    split
    · rename_i hlt
      intro c hc
      simp at hc
      subst hc
      interval_cases n <;> decide
    · rename_i hge
      intro c hc
      rw [List.mem_append] at hc
      rcases hc with hc | hc
      · exact ih (n / 10) (Nat.div_lt_self (by omega) (by omega)) c hc
      · simp at hc
        subst hc
        have hm : n % 10 < 10 := Nat.mod_lt _ (by omega)
        interval_cases h : n % 10 <;> decide

/-- A decimal print is never empty. -/
theorem natChars_ne_nil (n : Nat) : natChars n ≠ [] := by
  rw [natChars]
  split
  · simp
  · simp

/-- A digit character is not a sign, separator or whitespace character. -/
theorem digit_not_special {c : Char} (h : c.isDigit) :
    c ≠ '-' ∧ c ≠ '+' ∧ ¬ pyIsSpace c ∧ c ≠ '/' ∧ c ≠ ' ' := by
  refine ⟨?_, ?_, ?_, ?_, ?_⟩ <;> intro hc
  · rw [hc] at h; exact absurd h (by decide)
  · rw [hc] at h; exact absurd h (by decide)
  · have hc2 : c = ' ' ∨ c = '\t' ∨ c = '\n' ∨ c = '\r' := by
      simpa [pyIsSpace] using hc
    rcases hc2 with rfl | rfl | rfl | rfl <;> exact absurd h (by decide)
  · rw [hc] at h; exact absurd h (by decide)
  · rw [hc] at h; exact absurd h (by decide)

/-- The value of a digit print character. -/
theorem digitVal_digitChar {d : Nat} (h : d < 10) : digitVal (Nat.digitChar d) = d := by
  interval_cases d <;> decide

/-- `pyIntDigits` over a string extended by one character. -/
theorem pyIntDigits_append (xs : List Char) (c : Char) : ∀ acc : Nat,
    pyIntDigits (xs ++ [c]) acc =
      (pyIntDigits xs acc).bind
        (fun v => if pyIsDigit c then some (v * 10 + digitVal c) else none) := by
  induction xs with
  | nil =>
    intro acc
    show pyIntDigits [c] acc = _
    unfold pyIntDigits
    split <;> simp [pyIntDigits]
  | cons x xs ih =>
    intro acc
    show pyIntDigits (x :: (xs ++ [c])) acc = _
    unfold pyIntDigits
    split
    · exact ih _
    · simp

/-- Parsing the decimal print of a natural number. -/
theorem pyIntDigits_natChars : ∀ n : Nat, ∀ acc : Nat,
    pyIntDigits (natChars n) acc = some (acc * 10 ^ (natChars n).length + n) := by
  intro n
  induction n using Nat.strong_induction_on with
  | _ n ih =>
    intro acc
    have hdig : ∀ d : Nat, d < 10 → pyIsDigit (Nat.digitChar d) := by
      intro d hd
      interval_cases d <;> decide
    rw [natChars]
    split
    · rename_i hlt
      show pyIntDigits [Nat.digitChar n] acc = _
      unfold pyIntDigits
      rw [if_pos (hdig n hlt)]
      unfold pyIntDigits
      rw [digitVal_digitChar hlt]
      simp
    · rename_i hge
      rw [pyIntDigits_append, ih (n / 10) (Nat.div_lt_self (by omega) (by omega)) acc]
      rw [Option.some_bind, if_pos (hdig (n % 10) (Nat.mod_lt _ (by omega))),
        digitVal_digitChar (Nat.mod_lt _ (by omega))]
      congr 1
      have hlen : (natChars (n / 10) ++ [Nat.digitChar (n % 10)]).length
          = (natChars (n / 10)).length + 1 := by simp
      rw [hlen, pow_succ]
      calc (acc * 10 ^ (natChars (n / 10)).length + n / 10) * 10 + n % 10
          = acc * (10 ^ (natChars (n / 10)).length * 10) + (n / 10 * 10 + n % 10) := by ring
        _ = acc * (10 ^ (natChars (n / 10)).length * 10) + n := by omega

/-- `dropWhile` does nothing on a list with no satisfying element. -/
theorem dropWhile_of_none {p : Char → Bool} : ∀ s : List Char, (∀ c ∈ s, ¬ p c) →
    s.dropWhile p = s := by
  intro s h
  cases s with
  | nil => rfl
  | cons c cs =>
    rw [List.dropWhile_cons, if_neg (by simpa using h c (by simp))]

/-- `pyInt` parses back Python's `str()` of any integer. -/
theorem pyInt_intChars (i : Int) : pyInt (intChars i) = Except.ok i := by
  have hstrip : ∀ s : List Char, (∀ c ∈ s, ¬ pyIsSpace c) →
      ((s.dropWhile pyIsSpace).reverse.dropWhile pyIsSpace).reverse = s := by
    intro s h
    rw [dropWhile_of_none s h, dropWhile_of_none s.reverse (by intro c hc; exact h c (by simpa using hc))]
    simp
  unfold intChars
  split
  · rename_i hneg
    have hm : 1 ≤ (-i).toNat := by omega
    unfold pyInt
    rw [hstrip ('-' :: natChars (-i).toNat) ?hws]
    case hws =>
      intro c hc
      rcases List.mem_cons.1 hc with rfl | hc
      · decide
      · exact (digit_not_special (natChars_digits _ c hc)).2.2.1
    dsimp only
    rw [if_pos rfl]
    have hne := natChars_ne_nil (-i).toNat
    cases hch : natChars (-i).toNat with
    | nil => exact absurd hch hne
    | cons c0 cs =>
      dsimp only
      rw [← hch, pyIntDigits_natChars]
      simp only [Nat.zero_mul, Nat.zero_add]
      congr 1
      omega
  · rename_i hpos
    unfold pyInt
    rw [hstrip (natChars i.toNat)
      (fun c hc => (digit_not_special (natChars_digits _ c hc)).2.2.1)]
    have hne := natChars_ne_nil i.toNat
    cases hch : natChars i.toNat with
    | nil => exact absurd hch hne
    | cons c0 cs =>
      have hc0 : c0.isDigit := natChars_digits _ c0 (by rw [hch]; simp)
      dsimp only
      rw [if_neg (digit_not_special hc0).1, if_neg (digit_not_special hc0).2.1]
      rw [← hch, pyIntDigits_natChars]
      simp only [Nat.zero_mul, Nat.zero_add]
      congr 1
      omega

/-- The run-length encoding produced by `get_fen` for one rank, as a pure
function of the rank's cells (`e` is the pending empty-square count). -/
def encAux : List Char → Nat → List Char
  | [], e => if e > 0 then natChars e else []
  | c :: cs, e =>
    if c = ' ' then encAux cs (e + 1)
    else (if e > 0 then natChars e else []) ++ c :: encAux cs 0

/-- `getFenRowAux` computes `encAux` of the cells it reads. -/
theorem getFenRowAux_spec (board : List Char) (base : Int) (h0 : 0 ≤ base) :
    ∀ (js : List Nat) (e : Nat), (∀ j ∈ js, base + (j : Int) < (board.length : Int)) →
      getFenRowAux board base js e =
        Except.ok (encAux (js.map (fun (j : Nat) => (board[(base + (j : Int)).toNat]?).getD ' ')) e) := by
  intro js
  induction js with
  | nil => intro e _; rfl
  | cons j js ihj =>
    intro e hin
    have hj : base + (j : Int) < (board.length : Int) := hin j (by simp)
    have hidx : (base + (j : Int)).toNat < board.length := by omega
    have hsome : board[(base + (j : Int)).toNat]? = some (board.get ⟨(base + (j : Int)).toNat, hidx⟩) := by
      rw [List.getElem?_eq_getElem hidx]
      simp [List.get_eq_getElem]
    show getFenRowAux board base (j :: js) e = _
    unfold getFenRowAux
    rw [pyGet_some (by omega) hsome, pyBind_ok]
    rw [List.map_cons]
    rw [show (board[(base + (j : Int)).toNat]?).getD ' ' = board.get ⟨(base + (j : Int)).toNat, hidx⟩ from by
      rw [hsome]; rfl]
    rw [encAux.eq_def]
    dsimp only
    split
    · exact ihj (e + 1) (fun x hx => hin x (by simp [hx]))
    · rw [ihj 0 (fun x hx => hin x (by simp [hx])), pyBind_ok]

/-- The rank encoding is nonempty whenever there is anything to encode. -/
theorem encAux_ne_nil : ∀ (cells : List Char) (e : Nat), 0 < e + cells.length →
    encAux cells e ≠ [] := by
  intro cells
  induction cells with
  | nil =>
    intro e he
    simp only [List.length_nil, Nat.add_zero] at he
    unfold encAux
    rw [if_pos he]
    exact natChars_ne_nil e
  | cons c cs ih =>
    intro e _
    unfold encAux
    split
    · exact ih (e + 1) (by omega)
    · simp

/-- Every character of a rank encoding is a non-space cell or a digit. -/
theorem encAux_chars : ∀ (cells : List Char) (e : Nat) (c : Char), c ∈ encAux cells e →
    (c ∈ cells ∧ c ≠ ' ') ∨ c.isDigit := by
  intro cells
  induction cells with
  | nil =>
    intro e c hc
    unfold encAux at hc
    split at hc
    · exact Or.inr (natChars_digits e c hc)
    · simp at hc
  | cons x cs ih =>
    intro e c hc
    unfold encAux at hc
    split at hc
    · rcases ih (e + 1) c hc with ⟨hm, hne⟩ | hd
      · exact Or.inl ⟨by simp [hm], hne⟩
      · exact Or.inr hd
    · rename_i hx
      rw [List.mem_append] at hc
      rcases hc with hc | hc
      · split at hc
        · exact Or.inr (natChars_digits e c hc)
        · simp at hc
      · rcases List.mem_cons.1 hc with rfl | hc
        · exact Or.inl ⟨by simp, hx⟩
        · rcases ih 0 c hc with ⟨hm, hne⟩ | hd
          · exact Or.inl ⟨by simp [hm], hne⟩
          · exact Or.inr hd

/-- A single count in a rank encoding prints as one digit character. -/
theorem natChars_lt_ten {e : Nat} (h2 : e < 10) : natChars e = [Nat.digitChar e] := by
  rw [natChars]
  rw [dif_pos h2]

/-- Print digits are recognised by `pyIsDigit`. -/
theorem digitChar_isDigit {d : Nat} (h : d < 10) : pyIsDigit (Nat.digitChar d) := by
  interval_cases d <;> decide

/-- Decoding a rank encoding writes exactly the encoded cells back: running
`set_fen`'s inner loop on `encAux cells e` over a row whose unprocessed part
is all spaces reproduces `cells` (after `e` spaces) at the corresponding
positions and touches nothing else. -/
theorem setRankChars_encAux :
    ∀ (cells : List Char) (e : Nat) (board : List Char) (i j : Int),
      board.length = 64 → 1 ≤ i → i ≤ 8 → 0 ≤ j →
      j.toNat + e + cells.length ≤ 8 →
      (∀ c ∈ cells, ¬ pyIsDigit c) →
      (∀ t : Nat, j.toNat + e ≤ t → t < 8 → board[((i - 1) * 8).toNat + t]? = some ' ') →
      ∃ board2, setRankChars board i (encAux cells e) j = Except.ok board2 ∧
        board2.length = 64 ∧
        (∀ k : Nat, board2[k]? =
          if ((i - 1) * 8).toNat + j.toNat + e ≤ k ∧
              k < ((i - 1) * 8).toNat + j.toNat + e + cells.length
          then cells[k - (((i - 1) * 8).toNat + j.toNat + e)]?
          else board[k]?) := by
  intro cells
  induction cells with
  | nil =>
    intro e board i j hlen hi1 hi8 hj0 hbound _ _
    simp only [List.length_nil, Nat.add_zero] at hbound
    refine ⟨board, ?_, hlen, ?_⟩
    · unfold encAux
      split
      · rename_i he
        rw [natChars_lt_ten (by omega)]
        rw [setRankChars.eq_def]
        dsimp only
        rw [if_pos (digitChar_isDigit (by omega))]
        rfl
      · rfl
    · intro k
      rw [if_neg (by simp)]
  | cons c cs ih =>
    intro e board i j hlen hi1 hi8 hj0 hbound hnd hsp
    simp only [List.length_cons] at hbound
    have hbase : ((i - 1) * 8).toNat + 8 ≤ 64 := by omega
    by_cases hc : c = ' '
    · subst hc
      have hrec := ih (e + 1) board i j hlen hi1 hi8 hj0 (by omega)
        (fun x hx => hnd x (by simp [hx])) (fun t ht1 ht2 => hsp t (by omega) ht2)
      obtain ⟨b2, hb2, hl2, hform⟩ := hrec
      refine ⟨b2, ?_, hl2, ?_⟩
      · rw [encAux.eq_def]
        dsimp only
        rw [if_pos rfl]
        exact hb2
      · intro k
        rw [hform k]
        by_cases hk0 : k = ((i - 1) * 8).toNat + j.toNat + e
        · subst hk0
          rw [if_neg (by omega), if_pos (by simp only [List.length_cons]; omega)]
          have hb := hsp (j.toNat + e) (by omega) (by omega)
          rw [← Nat.add_assoc] at hb
          rw [hb]
          simp
        · by_cases hk1 : ((i - 1) * 8).toNat + j.toNat + (e + 1) ≤ k ∧
              k < ((i - 1) * 8).toNat + j.toNat + (e + 1) + cs.length
          · rw [if_pos hk1, if_pos (by simp only [List.length_cons]; omega)]
            have hm : k - (((i - 1) * 8).toNat + j.toNat + e) =
                (k - (((i - 1) * 8).toNat + j.toNat + (e + 1))) + 1 := by omega
            rw [hm]
            simp
          · rw [if_neg hk1, if_neg (by simp only [List.length_cons]; omega)]
    · have hstep : setRankChars board i (encAux (c :: cs) e) j
          = setRankChars board i (c :: encAux cs 0) (j + (e : Int)) := by
        rw [encAux.eq_def]
        dsimp only
        rw [if_neg hc]
        by_cases he : e > 0
        · rw [if_pos he, natChars_lt_ten (by omega)]
          show setRankChars board i (Nat.digitChar e :: (c :: encAux cs 0)) j = _
          rw [setRankChars.eq_def]
          dsimp only
          rw [if_pos (digitChar_isDigit (by omega)), digitVal_digitChar (by omega)]
        · rw [if_neg he]
          have he0 : e = 0 := by omega
          subst he0
          norm_num
      have hidx0 : (0 : Int) ≤ (i - 1) * 8 + (j + (e : Int)) := by
        have : (0 : Int) ≤ (i - 1) * 8 := by omega
        omega
      have hidxlt : (i - 1) * 8 + (j + (e : Int)) < 64 := by omega
      have hidxNat : ((i - 1) * 8 + (j + (e : Int))).toNat
          = ((i - 1) * 8).toNat + j.toNat + e := by omega
      have hwrite : pyStore board ((i - 1) * 8 + (j + (e : Int))) c
          = Except.ok (board.set (((i - 1) * 8).toNat + j.toNat + e) c) := by
        rw [pyStore_some _ _ _ hidx0 (by omega), hidxNat]
      have hrec := ih 0 (board.set (((i - 1) * 8).toNat + j.toNat + e) c) i
        (j + (e : Int) + 1) (by simpa using hlen) hi1 hi8 (by omega) (by omega)
        (fun x hx => hnd x (by simp [hx])) ?pre
      case pre =>
        intro t ht1 ht2
        have htj : (j + (e : Int) + 1).toNat = j.toNat + e + 1 := by omega
        rw [htj] at ht1
        rw [List.getElem?_set_ne (by omega)]
        exact hsp t (by omega) ht2
      obtain ⟨b2, hb2, hl2, hform⟩ := hrec
      refine ⟨b2, ?_, hl2, ?_⟩
      · rw [hstep]
        rw [setRankChars.eq_def]
        dsimp only
        rw [if_neg (by simpa using hnd c (by simp))]
        rw [hwrite, pyBind_ok]
        exact hb2
      · intro k
        have htj : (j + (e : Int) + 1).toNat = j.toNat + e + 1 := by omega
        rw [hform k, htj]
        by_cases hk0 : k = ((i - 1) * 8).toNat + j.toNat + e
        · subst hk0
          rw [if_neg (by omega), if_pos (by simp only [List.length_cons]; omega)]
          rw [List.getElem?_set_eq_of_lt _ (by omega)]
          simp
        · by_cases hk1 : ((i - 1) * 8).toNat + (j.toNat + e + 1) + 0 ≤ k ∧
              k < ((i - 1) * 8).toNat + (j.toNat + e + 1) + 0 + cs.length
          · rw [if_pos (by omega), if_pos (by simp only [List.length_cons]; omega)]
            have hm : k - (((i - 1) * 8).toNat + j.toNat + e) =
                (k - (((i - 1) * 8).toNat + (j.toNat + e + 1) + 0)) + 1 := by omega
            rw [hm]
            simp
          · rw [if_neg (by omega), if_neg (by simp only [List.length_cons]; omega)]
            rw [List.getElem?_set_ne (by omega)]

/-- Tokens produced by `str.split()` are nonempty, whitespace-free, and drawn
from the input (or the pending accumulator). -/
theorem pySplitWsAux_tokens : ∀ (l acc : List Char), (∀ c ∈ acc, ¬ pyIsSpace c) →
    ∀ t ∈ pySplitWsAux l acc, t ≠ [] ∧ ∀ c ∈ t, ¬ pyIsSpace c ∧ (c ∈ l ∨ c ∈ acc) := by
  intro l
  induction l with
  | nil =>
    intro acc hacc t ht
    unfold pySplitWsAux at ht
    split at ht
    · simp at ht
    · rename_i hne
      rw [List.mem_singleton] at ht
      subst ht
      refine ⟨by simpa [List.isEmpty_iff] using hne, ?_⟩
      intro c hc
      rw [List.mem_reverse] at hc
      exact ⟨hacc c hc, Or.inr hc⟩
  | cons x xs ih =>
    intro acc hacc t ht
    rw [pySplitWsAux.eq_def] at ht
    dsimp only at ht
    split at ht
    · rename_i hx
      split at ht
      · rename_i hemp
        obtain ⟨h1, h2⟩ := ih [] (by simp) t ht
        exact ⟨h1, fun c hc =>
          ⟨(h2 c hc).1, (h2 c hc).2.elim (fun h => Or.inl (by simp [h])) (fun h => absurd h (by simp))⟩⟩
      · rename_i hemp
        rcases List.mem_cons.1 ht with rfl | ht
        · refine ⟨by simpa [List.isEmpty_iff] using hemp, ?_⟩
          intro c hc
          rw [List.mem_reverse] at hc
          exact ⟨hacc c hc, Or.inr hc⟩
        · obtain ⟨h1, h2⟩ := ih [] (by simp) t ht
          exact ⟨h1, fun c hc =>
            ⟨(h2 c hc).1, (h2 c hc).2.elim (fun h => Or.inl (by simp [h])) (fun h => absurd h (by simp))⟩⟩
    · rename_i hx
      have hacc2 : ∀ c ∈ x :: acc, ¬ pyIsSpace c := by
        intro c hc
        rcases List.mem_cons.1 hc with rfl | hc
        · exact hx
        · exact hacc c hc
      obtain ⟨h1, h2⟩ := ih (x :: acc) hacc2 t ht
      refine ⟨h1, fun c hc => ⟨(h2 c hc).1, ?_⟩⟩
      rcases (h2 c hc).2 with h | h
      · exact Or.inl (by simp [h])
      · rcases List.mem_cons.1 h with rfl | h
        · exact Or.inl (by simp)
        · exact Or.inr h

/-- Tokens of `str.split()` are nonempty, whitespace-free subwords. -/
theorem pySplitWs_tokens (l : List Char) :
    ∀ t ∈ pySplitWs l, t ≠ [] ∧ ∀ c ∈ t, ¬ pyIsSpace c ∧ c ∈ l := by
  intro t ht
  obtain ⟨h1, h2⟩ := pySplitWsAux_tokens l [] (by simp) t ht
  refine ⟨h1, fun c hc => ⟨(h2 c hc).1, ?_⟩⟩
  rcases (h2 c hc).2 with h | h
  · exact h
  · simp at h

/-- Fields produced by `str.split(sep)` are separator-free and drawn from the
input (or the pending accumulator). -/
theorem pySplitOnAux_tokens (sep : Char) : ∀ (l acc : List Char), sep ∉ acc →
    ∀ t ∈ pySplitOnAux sep l acc, ∀ c ∈ t, c ≠ sep ∧ (c ∈ l ∨ c ∈ acc) := by
  intro l
  induction l with
  | nil =>
    intro acc hacc t ht c hc
    unfold pySplitOnAux at ht
    rw [List.mem_singleton] at ht
    subst ht
    rw [List.mem_reverse] at hc
    exact ⟨by rintro rfl; exact hacc hc, Or.inr hc⟩
  | cons x xs ih =>
    intro acc hacc t ht c hc
    rw [pySplitOnAux.eq_def] at ht
    dsimp only at ht
    split at ht
    · rename_i hx
      rcases List.mem_cons.1 ht with rfl | ht
      · rw [List.mem_reverse] at hc
        exact ⟨by rintro rfl; exact hacc hc, Or.inr hc⟩
      · obtain ⟨h1, h2⟩ := ih [] (by simp) t ht c hc
        refine ⟨h1, ?_⟩
        rcases h2 with h | h
        · exact Or.inl (by simp [h])
        · simp at h
    · rename_i hx
      have hacc2 : sep ∉ x :: acc := by
        intro hmem
        rcases List.mem_cons.1 hmem with hh | hmem
        · exact hx hh.symm
        · exact hacc hmem
      obtain ⟨h1, h2⟩ := ih (x :: acc) hacc2 t ht c hc
      refine ⟨h1, ?_⟩
      rcases h2 with h | h
      · exact Or.inl (by simp [h])
      · rcases List.mem_cons.1 h with rfl | h
        · exact Or.inl (by simp)
        · exact Or.inr h

/-- Fields of `str.split(sep)` are separator-free subwords. -/
theorem pySplitOn_tokens (l : List Char) (sep : Char) :
    ∀ t ∈ pySplitOn l sep, ∀ c ∈ t, c ≠ sep ∧ c ∈ l := by
  intro t ht c hc
  obtain ⟨h1, h2⟩ := pySplitOnAux_tokens sep l [] (by simp) t ht c hc
  refine ⟨h1, ?_⟩
  rcases h2 with h | h
  · exact h
  · simp at h

/-- A successful `pyGet` returns an element of the list. -/
theorem pyGet_mem {α : Type} {l : List α} {i : Int} {a : α}
    (h : pyGet l i = Except.ok a) : a ∈ l := by
  unfold pyGet at h
  split at h
  · cases h
    exact List.get_mem _ _ _
  · split at h
    · cases h
      exact List.get_mem _ _ _
    · exact absurd h (by simp)

/-- A successful `pyStore` preserves the length and changes cells only to the
stored value. -/
theorem pyStore_inv {α : Type} {l : List α} {i : Int} {v : α} {l2 : List α}
    (h : pyStore l i v = Except.ok l2) :
    l2.length = l.length ∧ ∀ (k : Nat) (x : α), l2[k]? = some x → l[k]? = some x ∨ x = v := by
  unfold pyStore at h
  have main : ∀ n : Nat, l2 = l.set n v →
      l2.length = l.length ∧ ∀ (k : Nat) (x : α), l2[k]? = some x → l[k]? = some x ∨ x = v := by
    intro n hset
    subst hset
    refine ⟨by simp, ?_⟩
    intro k x hk
    by_cases hkn : n = k
    · subst hkn
      rw [List.getElem?_set_self'] at hk
      have : x = v := by
        cases hl : l[n]? with
        | none => rw [hl] at hk; simp at hk
        | some y => rw [hl] at hk; simpa using hk.symm
      exact Or.inr this
    · rw [List.getElem?_set_ne hkn] at hk
      exact Or.inl hk
  split at h
  · exact main i.toNat (Except.ok.inj h).symm
  · split at h
    · exact main ((l.length : Int) + i).toNat (Except.ok.inj h).symm
    · exact absurd h (by simp)

/-- `set_fen`'s inner loop preserves the board length and writes only
non-digit characters of its rank string. -/
theorem setRankChars_inv : ∀ (cs board : List Char) (i j : Int) (b2 : List Char),
    setRankChars board i cs j = Except.ok b2 →
    b2.length = board.length ∧
    ∀ (k : Nat) (x : Char), b2[k]? = some x →
      board[k]? = some x ∨ (x ∈ cs ∧ ¬ pyIsDigit x) := by
  intro cs
  induction cs with
  | nil =>
    intro board i j b2 h
    cases h
    exact ⟨rfl, fun k x hk => Or.inl hk⟩
  | cons c cs ih =>
    intro board i j b2 h
    rw [setRankChars.eq_def] at h
    dsimp only at h
    split at h
    · rename_i hd
      obtain ⟨hlen, hcell⟩ := ih board i _ b2 h
      refine ⟨hlen, fun k x hk => ?_⟩
      rcases hcell k x hk with h1 | ⟨h1, h2⟩
      · exact Or.inl h1
      · exact Or.inr ⟨by simp [h1], h2⟩
    · rename_i hd
      obtain ⟨b1, hb1, h⟩ := bind_ok_elim h
      obtain ⟨hl1, hc1⟩ := pyStore_inv hb1
      obtain ⟨hl2, hc2⟩ := ih b1 i _ b2 h
      refine ⟨by rw [hl2, hl1], fun k x hk => ?_⟩
      rcases hc2 k x hk with h1 | ⟨h1, h2⟩
      · rcases hc1 k x h1 with h3 | h3
        · exact Or.inl h3
        · exact Or.inr ⟨by simp [h3], by rw [h3]; exact hd⟩
      · exact Or.inr ⟨by simp [h1], h2⟩

/-- `set_fen`'s rank loop preserves the board length and writes only
non-digit characters of its rank strings. -/
theorem setFenRanks_inv : ∀ (rows : List (List Char)) (board : List Char) (i : Int)
    (b2 : List Char), setFenRanks board rows i = Except.ok b2 →
    b2.length = board.length ∧
    ∀ (k : Nat) (x : Char), b2[k]? = some x →
      board[k]? = some x ∨ (¬ pyIsDigit x ∧ ∃ r ∈ rows, x ∈ r) := by
  intro rows
  induction rows with
  | nil =>
    intro board i b2 h
    cases h
    exact ⟨rfl, fun k x hk => Or.inl hk⟩
  | cons r rs ih =>
    intro board i b2 h
    rw [setFenRanks.eq_def] at h
    dsimp only at h
    obtain ⟨b1, hb1, h⟩ := bind_ok_elim h
    obtain ⟨hl1, hc1⟩ := setRankChars_inv r board i 0 b1 hb1
    obtain ⟨hl2, hc2⟩ := ih b1 (i - 1) b2 h
    refine ⟨by rw [hl2, hl1], fun k x hk => ?_⟩
    rcases hc2 k x hk with h1 | ⟨h1, r2, h2, h3⟩
    · rcases hc1 k x h1 with h3 | ⟨h3, h4⟩
      · exact Or.inl h3
      · exact Or.inr ⟨h4, r, by simp, h3⟩
    · exact Or.inr ⟨h1, r2, by simp [h2], h3⟩

/-- The eight cells of one board rank starting at index `b`, as `get_fen`
reads them. -/
def cellsRow (board : List Char) (b : Nat) : List Char :=
  [(board[b]?).getD ' ', (board[b+1]?).getD ' ', (board[b+2]?).getD ' ',
   (board[b+3]?).getD ' ', (board[b+4]?).getD ' ',
   (board[b+5]?).getD ' ', (board[b+6]?).getD ' ', (board[b+7]?).getD ' ']

/-- Every cell of an in-range rank is a cell of the board. -/
theorem cellsRow_mem {board : List Char} {b : Nat} (hb : b + 8 ≤ board.length) {x : Char}
    (hx : x ∈ cellsRow board b) : ∃ k : Nat, board[k]? = some x := by
  have hone : ∀ idx : Nat, idx < board.length → x = (board[idx]?).getD ' ' →
      ∃ k : Nat, board[k]? = some x := by
    intro idx hidx he
    refine ⟨idx, ?_⟩
    rw [List.getElem?_eq_getElem hidx] at he ⊢
    rw [Option.getD_some] at he
    rw [he]
  simp only [cellsRow, List.mem_cons, List.not_mem_nil, or_false] at hx
  rcases hx with h | h | h | h | h | h | h | h
  exacts [hone b (by omega) h, hone (b+1) (by omega) h, hone (b+2) (by omega) h,
    hone (b+3) (by omega) h, hone (b+4) (by omega) h, hone (b+5) (by omega) h,
    hone (b+6) (by omega) h, hone (b+7) (by omega) h]

/-- Indexing into a rank's cell list. -/
theorem cellsRow_cell (board : List Char) (b : Nat) (m : Nat) (hm : m < 8) :
    (cellsRow board b)[m]? = some ((board[b + m]?).getD ' ') := by
  interval_cases m <;> simp [cellsRow]

/-- `getFenRowAux` over the eight files of a rank produces the rank
encoding of its cells. -/
theorem getFenRowAux_cellsRow (board : List Char) (base : Int) (b : Nat)
    (hb : base = (b : Int)) (hlen : b + 8 ≤ board.length) :
    getFenRowAux board base [0, 1, 2, 3, 4, 5, 6, 7] 0
      = Except.ok (encAux (cellsRow board b) 0) := by
  subst hb
  have hidx : ∀ m : Nat, ((b : Int) + (m : Int)).toNat = b + m := by intro m; omega
  rw [getFenRowAux_spec board (b : Int) (by omega) _ 0 ?bnd]
  case bnd =>
    intro j hj
    have hj8 : j < 8 := by
      simp only [List.mem_cons, List.not_mem_nil, or_false] at hj
      omega
    omega
  · congr 2

/-- Characters of a separator join are the separator or field characters. -/
theorem joinSep_chars (sep : Char) : ∀ ts : List (List Char), ∀ c ∈ joinSep sep ts,
    c = sep ∨ ∃ t ∈ ts, c ∈ t := by
  intro ts
  induction ts with
  | nil => intro c hc; simp [joinSep] at hc
  | cons t ts ih =>
    intro c hc
    cases ts with
    | nil => exact Or.inr ⟨t, by simp, by simpa [joinSep] using hc⟩
    | cons t2 ts2 =>
      rw [show joinSep sep (t :: t2 :: ts2) = t ++ sep :: joinSep sep (t2 :: ts2) from rfl] at hc
      rcases List.mem_append.1 hc with h | h
      · exact Or.inr ⟨t, by simp, h⟩
      · rcases List.mem_cons.1 h with rfl | h
        · exact Or.inl rfl
        · rcases ih c h with h2 | ⟨t3, h3, h4⟩
          · exact Or.inl h2
          · exact Or.inr ⟨t3, by simp [h3], h4⟩

/-- Rebuilding a board from its own rank encodings: running `set_fen`'s rank
loop over the encodings of ranks `i, i-1, ..., 1` of a 64-cell digit-free
board, starting from a board that is blank below rank `i` and agrees with the
target above, reproduces the target exactly. -/
theorem setFenRanks_rebuild (target : List Char) (hlen : target.length = 64)
    (hcls : ∀ (k : Nat) (x : Char), target[k]? = some x → x = ' ' ∨ ¬ pyIsDigit x) :
    ∀ (i : Nat), i ≤ 8 → ∀ (cur : List Char), cur.length = 64 →
    (∀ k : Nat, k < i * 8 → cur[k]? = some ' ') →
    (∀ k : Nat, i * 8 ≤ k → cur[k]? = target[k]?) →
    setFenRanks cur ((List.range i).reverse.map (fun r => encAux (cellsRow target (r * 8)) 0))
      (i : Int) = Except.ok target := by
  intro i
  induction i with
  | zero =>
    intro _ cur _ _ hagree
    have hct : cur = target := List.ext_getElem? (fun k => hagree k (by omega))
    subst hct
    simp [setFenRanks]
  | succ n ihn =>
    intro hle cur hcur hsp hagree
    have hcl : (cellsRow target (n * 8)).length = 8 := rfl
    have hrows : (List.range (n+1)).reverse.map (fun r => encAux (cellsRow target (r * 8)) 0)
        = encAux (cellsRow target (n * 8)) 0 ::
          (List.range n).reverse.map (fun r => encAux (cellsRow target (r * 8)) 0) := by
      rw [List.range_succ, List.reverse_append]
      simp
    rw [hrows]
    have hbase : ((((n+1 : Nat) : Int)) - 1) * 8 = ((n * 8 : Nat) : Int) := by push_cast; ring
    have hbaseN : (((((n+1 : Nat) : Int)) - 1) * 8).toNat = n * 8 := by omega
    have henc := setRankChars_encAux (cellsRow target (n * 8)) 0 cur ((n+1 : Nat) : Int) 0
      hcur (by omega) (by omega) (by omega) (by simp [hcl]) ?nd ?sp
    case nd =>
      intro x hx
      obtain ⟨k, hk⟩ := cellsRow_mem (show n * 8 + 8 ≤ target.length by omega) hx
      rcases hcls k x hk with rfl | h
      · decide
      · exact h
    case sp =>
      intro t ht1 ht2
      rw [hbaseN]
      exact hsp (n * 8 + t) (by omega)
    obtain ⟨b2, hb2, hl2, hform⟩ := henc
    have h0 : ((0 : Int)).toNat = 0 := rfl
    simp only [hbaseN, h0, Nat.add_zero, hcl] at hform
    rw [setFenRanks.eq_def]
    dsimp only
    rw [hb2, pyBind_ok]
    have hcnt : ((n+1 : Nat) : Int) - 1 = (n : Int) := by push_cast; ring
    rw [hcnt]
    apply ihn (by omega) b2 hl2
    · intro k hk
      rw [hform k, if_neg (by omega)]
      exact hsp k (by omega)
    · intro k hk
      rw [hform k]
      by_cases hklt : k < n * 8 + 8
      · rw [if_pos ⟨hk, hklt⟩, cellsRow_cell target (n * 8) (k - n * 8) (by omega)]
        have he : n * 8 + (k - n * 8) = k := by omega
        rw [he]
        by_cases hk64 : k < 64
        · rw [List.getElem?_eq_getElem (show k < target.length by omega)]
          rfl
        · omega
      · rw [if_neg (by omega)]
        exact hagree k (by omega)

/-- `get_fen`'s rank loop over a 64-cell board produces the `/`-join of the
eight rank encodings, top rank first. -/
theorem getFenRows_spec (board : List Char) (hlen : board.length = 64) :
    getFenRows board [56, 48, 40, 32, 24, 16, 8, 0] =
      Except.ok (joinSep '/'
        [encAux (cellsRow board 56) 0, encAux (cellsRow board 48) 0,
         encAux (cellsRow board 40) 0, encAux (cellsRow board 32) 0,
         encAux (cellsRow board 24) 0, encAux (cellsRow board 16) 0,
         encAux (cellsRow board 8) 0, encAux (cellsRow board 0) 0]) := by
  have h56 := getFenRowAux_cellsRow board 56 56 (by norm_num) (by omega)
  have h48 := getFenRowAux_cellsRow board 48 48 (by norm_num) (by omega)
  have h40 := getFenRowAux_cellsRow board 40 40 (by norm_num) (by omega)
  have h32 := getFenRowAux_cellsRow board 32 32 (by norm_num) (by omega)
  have h24 := getFenRowAux_cellsRow board 24 24 (by norm_num) (by omega)
  have h16 := getFenRowAux_cellsRow board 16 16 (by norm_num) (by omega)
  have h8 := getFenRowAux_cellsRow board 8 8 (by norm_num) (by omega)
  have h0 := getFenRowAux_cellsRow board 0 0 (by norm_num) (by omega)
  simp only [getFenRows, h56, h48, h40, h32, h24, h16, h8, h0, pyBind_ok]
  norm_num [joinSep]

/-- Characters of a rank encoding of a classified board are printable FEN
characters: not whitespace and not the rank separator. -/
theorem encRow_chars {board : List Char} (hlen : board.length = 64)
    (hcls : ∀ (k : Nat) (x : Char), board[k]? = some x →
      x = ' ' ∨ (¬ pyIsDigit x ∧ ¬ pyIsSpace x ∧ x ≠ '/')) {b : Nat} (hb : b + 8 ≤ 64)
    {c : Char} (hc : c ∈ encAux (cellsRow board b) 0) : ¬ pyIsSpace c ∧ c ≠ '/' := by
  rcases encAux_chars _ _ _ hc with ⟨hm, hne⟩ | hd
  · obtain ⟨k, hk⟩ := cellsRow_mem (by omega) hm
    rcases hcls k c hk with rfl | ⟨_, hws, hsl⟩
    · exact absurd rfl hne
    · exact ⟨hws, hsl⟩
  · have hsp := digit_not_special hd
    exact ⟨hsp.2.2.1, hsp.2.2.2.1⟩

/-- `str(i)` is never empty. -/
theorem intChars_ne_nil (i : Int) : intChars i ≠ [] := by
  unfold intChars
  split
  · simp
  · exact natChars_ne_nil _

/-- `str(i)` contains no whitespace. -/
theorem intChars_not_ws (i : Int) : ∀ c ∈ intChars i, ¬ pyIsSpace c := by
  intro c hc
  unfold intChars at hc
  split at hc
  · rcases List.mem_cons.1 hc with rfl | hc
    · decide
    · exact (digit_not_special (natChars_digits _ c hc)).2.2.1
  · exact (digit_not_special (natChars_digits _ c hc)).2.2.1

/-- Subscripting a six-element Python list at literal indices. -/
theorem pyGet_list6 {α : Type} (a b c d e f : α) :
    pyGet [a, b, c, d, e, f] 0 = Except.ok a ∧ pyGet [a, b, c, d, e, f] 1 = Except.ok b ∧
    pyGet [a, b, c, d, e, f] 2 = Except.ok c ∧ pyGet [a, b, c, d, e, f] 3 = Except.ok d ∧
    pyGet [a, b, c, d, e, f] 4 = Except.ok e ∧ pyGet [a, b, c, d, e, f] 5 = Except.ok f := by
  refine ⟨?_, ?_, ?_, ?_, ?_, ?_⟩ <;> rfl

/-- C5: for every position loaded from a FEN string that `set_fen` accepts,
`set_fen(get_fen())` restores the identical game state: the serialized FEN
parses back to exactly the state it was read from (board, turn, castling,
en-passant, halfmove and fullmove included). -/
theorem c5_fen_round_trip (s0 : GameState) (fen : List Char) (s : GameState)
    (h : setFen s0 fen = Except.ok s) :
    ∃ f : List Char, getFen s = Except.ok f ∧ setFen s f = Except.ok s := by
  obtain ⟨sb, st, sc, se, shm, sfm, shi, sre, g1, g2, g3, g4, g5⟩ := s
  unfold setFen at h
  obtain ⟨turn, hturn, h⟩ := bind_ok_elim h
  obtain ⟨castl, hcastl, h⟩ := bind_ok_elim h
  obtain ⟨enp, henp, h⟩ := bind_ok_elim h
  obtain ⟨f4, hf4, h⟩ := bind_ok_elim h
  obtain ⟨hm, hhm, h⟩ := bind_ok_elim h
  obtain ⟨f5, hf5, h⟩ := bind_ok_elim h
  obtain ⟨fm, hfm, h⟩ := bind_ok_elim h
  obtain ⟨f0, hf0, h⟩ := bind_ok_elim h
  obtain ⟨B, hB, h⟩ := bind_ok_elim h
  injection h with hinj
  simp only [GameState.mk.injEq] at hinj
  obtain ⟨rfl, rfl, rfl, rfl, rfl, rfl, rfl, rfl, rfl, rfl, rfl, rfl, rfl⟩ := hinj
  have hfields := pySplitWs_tokens fen
  have hturnT := hfields turn (pyGet_mem hturn)
  have hcastlT := hfields castl (pyGet_mem hcastl)
  have henpT := hfields enp (pyGet_mem henp)
  have hf0T : f0 ∈ pySplitWs fen := pyGet_mem hf0
  obtain ⟨hBl0, hBcells⟩ := setFenRanks_inv _ _ _ _ hB
  have hBlen : B.length = 64 := by rw [hBl0]; simp
  have hcls : ∀ (k : Nat) (x : Char), B[k]? = some x →
      x = ' ' ∨ (¬ pyIsDigit x ∧ ¬ pyIsSpace x ∧ x ≠ '/') := by
    intro k x hk
    rcases hBcells k x hk with h1 | ⟨hd, r, hr, hxr⟩
    · left
      by_cases hk64 : k < 64
      · rw [List.getElem?_eq_getElem (by simpa using hk64)] at h1
        have h2 := Option.some.inj h1
        rw [← h2]
        exact List.getElem_replicate _ _
      · rw [List.getElem?_eq_none (by simpa using hk64)] at h1
        exact absurd h1 (by simp)
    · have h2 := pySplitOn_tokens f0 '/' r hr x hxr
      have h3 := (hfields f0 hf0T).2 x h2.2
      exact Or.inr ⟨hd, h3.1, h2.1⟩
  have hcls2 : ∀ (k : Nat) (x : Char), B[k]? = some x → x = ' ' ∨ ¬ pyIsDigit x := by
    intro k x hk
    rcases hcls k x hk with h1 | h2
    · exact Or.inl h1
    · exact Or.inr h2.1
  have hplNe : joinSep '/' [encAux (cellsRow B 56) 0, encAux (cellsRow B 48) 0,
      encAux (cellsRow B 40) 0, encAux (cellsRow B 32) 0, encAux (cellsRow B 24) 0,
      encAux (cellsRow B 16) 0, encAux (cellsRow B 8) 0, encAux (cellsRow B 0) 0] ≠ [] := by
    simp [joinSep]
  have hplWs : ∀ c ∈ joinSep '/' [encAux (cellsRow B 56) 0, encAux (cellsRow B 48) 0,
      encAux (cellsRow B 40) 0, encAux (cellsRow B 32) 0, encAux (cellsRow B 24) 0,
      encAux (cellsRow B 16) 0, encAux (cellsRow B 8) 0, encAux (cellsRow B 0) 0], ¬ pyIsSpace c := by
    intro c hc
    rcases joinSep_chars '/' _ c hc with rfl | ⟨t, ht, hct⟩
    · decide
    · simp only [List.mem_cons, List.not_mem_nil, or_false] at ht
      rcases ht with rfl | rfl | rfl | rfl | rfl | rfl | rfl | rfl <;>
        exact (encRow_chars hBlen hcls (by omega) hct).1
  have hplSl : ∀ t ∈ [encAux (cellsRow B 56) 0, encAux (cellsRow B 48) 0,
      encAux (cellsRow B 40) 0, encAux (cellsRow B 32) 0, encAux (cellsRow B 24) 0,
      encAux (cellsRow B 16) 0, encAux (cellsRow B 8) 0, encAux (cellsRow B 0) 0], '/' ∉ t := by
    intro t ht hmem
    simp only [List.mem_cons, List.not_mem_nil, or_false] at ht
    rcases ht with rfl | rfl | rfl | rfl | rfl | rfl | rfl | rfl <;>
      exact (encRow_chars hBlen hcls (by omega) hmem).2 rfl
  have hsplit : pySplitWs (joinSep '/' [encAux (cellsRow B 56) 0, encAux (cellsRow B 48) 0,
      encAux (cellsRow B 40) 0, encAux (cellsRow B 32) 0, encAux (cellsRow B 24) 0,
      encAux (cellsRow B 16) 0, encAux (cellsRow B 8) 0, encAux (cellsRow B 0) 0] ++ [' '] ++ turn ++ [' '] ++ castl ++ [' ']
      ++ enp ++ [' '] ++ intChars hm ++ [' '] ++ intChars fm)
      = [joinSep '/' [encAux (cellsRow B 56) 0, encAux (cellsRow B 48) 0,
      encAux (cellsRow B 40) 0, encAux (cellsRow B 32) 0, encAux (cellsRow B 24) 0,
      encAux (cellsRow B 16) 0, encAux (cellsRow B 8) 0, encAux (cellsRow B 0) 0], turn, castl, enp, intChars hm, intChars fm] := by
    rw [show joinSep '/' [encAux (cellsRow B 56) 0, encAux (cellsRow B 48) 0,
      encAux (cellsRow B 40) 0, encAux (cellsRow B 32) 0, encAux (cellsRow B 24) 0,
      encAux (cellsRow B 16) 0, encAux (cellsRow B 8) 0, encAux (cellsRow B 0) 0] ++ [' '] ++ turn ++ [' '] ++ castl ++ [' ']
        ++ enp ++ [' '] ++ intChars hm ++ [' '] ++ intChars fm
        = joinSp [joinSep '/' [encAux (cellsRow B 56) 0, encAux (cellsRow B 48) 0,
      encAux (cellsRow B 40) 0, encAux (cellsRow B 32) 0, encAux (cellsRow B 24) 0,
      encAux (cellsRow B 16) 0, encAux (cellsRow B 8) 0, encAux (cellsRow B 0) 0], turn, castl, enp, intChars hm, intChars fm] from by
      simp [joinSp]]
    apply pySplitWs_joinSp _ (by simp)
    intro t ht
    simp only [List.mem_cons, List.not_mem_nil, or_false] at ht
    rcases ht with rfl | rfl | rfl | rfl | rfl | rfl
    · exact ⟨hplNe, hplWs⟩
    · exact ⟨hturnT.1, fun c hc => (hturnT.2 c hc).1⟩
    · exact ⟨hcastlT.1, fun c hc => (hcastlT.2 c hc).1⟩
    · exact ⟨henpT.1, fun c hc => (henpT.2 c hc).1⟩
    · exact ⟨intChars_ne_nil hm, intChars_not_ws hm⟩
    · exact ⟨intChars_ne_nil fm, intChars_not_ws fm⟩
  have hsplitOn : pySplitOn (joinSep '/' [encAux (cellsRow B 56) 0, encAux (cellsRow B 48) 0,
      encAux (cellsRow B 40) 0, encAux (cellsRow B 32) 0, encAux (cellsRow B 24) 0,
      encAux (cellsRow B 16) 0, encAux (cellsRow B 8) 0, encAux (cellsRow B 0) 0]) '/' = [encAux (cellsRow B 56) 0, encAux (cellsRow B 48) 0,
      encAux (cellsRow B 40) 0, encAux (cellsRow B 32) 0, encAux (cellsRow B 24) 0,
      encAux (cellsRow B 16) 0, encAux (cellsRow B 8) 0, encAux (cellsRow B 0) 0] :=
    pySplitOn_joinSep '/' _ (by simp) hplSl
  have hlist : (List.range 8).reverse.map (fun r => encAux (cellsRow B (r * 8)) 0)
      = [encAux (cellsRow B 56) 0, encAux (cellsRow B 48) 0,
      encAux (cellsRow B 40) 0, encAux (cellsRow B 32) 0, encAux (cellsRow B 24) 0,
      encAux (cellsRow B 16) 0, encAux (cellsRow B 8) 0, encAux (cellsRow B 0) 0] := by
    show ([7, 6, 5, 4, 3, 2, 1, 0] : List Nat).map (fun r => encAux (cellsRow B (r * 8)) 0) = _
    simp only [List.map_cons, List.map_nil]
  have hsp0 : ∀ k : Nat, k < 8 * 8 → (List.replicate 64 ' ' : List Char)[k]? = some ' ' := by
    intro k hk
    rw [List.getElem?_eq_getElem (by simpa using hk), List.getElem_replicate]
  have hagree0 : ∀ k : Nat, 8 * 8 ≤ k → (List.replicate 64 ' ' : List Char)[k]? = B[k]? := by
    intro k hk
    rw [List.getElem?_eq_none (by simpa using hk), List.getElem?_eq_none (by omega)]
  have hreb := setFenRanks_rebuild B hBlen hcls2 8 (by omega) (List.replicate 64 ' ')
    (by simp) hsp0 hagree0
  rw [hlist] at hreb
  rw [show ((8 : Nat) : Int) = (8 : Int) from by norm_num] at hreb
  refine ⟨joinSep '/' [encAux (cellsRow B 56) 0, encAux (cellsRow B 48) 0,
      encAux (cellsRow B 40) 0, encAux (cellsRow B 32) 0, encAux (cellsRow B 24) 0,
      encAux (cellsRow B 16) 0, encAux (cellsRow B 8) 0, encAux (cellsRow B 0) 0] ++ [' '] ++ turn ++ [' '] ++ castl ++ [' ']
      ++ enp ++ [' '] ++ intChars hm ++ [' '] ++ intChars fm, ?_, ?_⟩
  · unfold getFen
    dsimp only
    rw [getFenRows_spec B hBlen]
    rfl
  · have hP6 := pyGet_list6 (joinSep '/' [encAux (cellsRow B 56) 0, encAux (cellsRow B 48) 0,
      encAux (cellsRow B 40) 0, encAux (cellsRow B 32) 0, encAux (cellsRow B 24) 0,
      encAux (cellsRow B 16) 0, encAux (cellsRow B 8) 0, encAux (cellsRow B 0) 0]) turn castl enp (intChars hm) (intChars fm)
    unfold setFen
    dsimp only
    rw [hsplit]
    simp only [hP6.1, hP6.2.1, hP6.2.2.1, hP6.2.2.2.1, hP6.2.2.2.2.1, hP6.2.2.2.2.2,
      pyBind_ok, pyInt_intChars, hsplitOn, hreb]

/-- Witness for C5: the round trip at the standard starting position. -/
theorem c5_witness :
    setFen classDefaults START_FEN = Except.ok startSt ∧
    ∃ f : List Char, getFen startSt = Except.ok f ∧ setFen startSt f = Except.ok startSt :=
  ⟨by rfl, c5_fen_round_trip classDefaults START_FEN startSt (by rfl)⟩
